import Mathlib

/-!
# ESP32-S3 voice pipeline: echo canceller, gain stage, codec calls, lifecycle

Shallow embedding of

* `INMP441/mic_debug/main/media.cpp` (namespace `MicDebug`): the loopback
  pipeline `audio_loopback` with `apply_echo_cancellation`;
* `src/media.cpp` and `src/webrtc.cpp` (namespace `Firmware`): the duplex
  pipeline `send_audio`, `audio_decode` and the connection-state handler.

Samples are `Int` values; the 16-bit and 32-bit conversions of the C code are
the explicit reductions `wrap16` and `wrap32`.  Buffers are lists, and every
array access is bounds-checked: a function returns `none` exactly when the C
code would access an array outside its allocation.
-/

/-! ## Machine integers and memory -/

/-- Value of an integer after conversion to a signed 16-bit type. -/
def wrap16 (x : Int) : Int := (x + 32768) % 65536 - 32768

/-- Value of an integer after conversion to a signed 32-bit type. -/
def wrap32 (x : Int) : Int := (x + 2147483648) % 4294967296 - 2147483648

/-- Saturation to the signed 16-bit range, as the specification words it. -/
def clamp16 (x : Int) : Int := max (-32768) (min 32767 x)

/-- Membership in the value range of `opus_int16`. -/
abbrev isInt16 (x : Int) : Prop := -32768 ≤ x ∧ x ≤ 32767

/-- Array read `buf[idx]` with a signed index. -/
def readAt (buf : List Int) (idx : Int) : Option Int :=
  if 0 ≤ idx then buf[idx.toNat]? else none

/-- Array write `buf[idx] = v` with a signed index. -/
def writeAt (buf : List Int) (idx : Int) (v : Int) : Option (List Int) :=
  if 0 ≤ idx ∧ idx.toNat < buf.length then some (buf.set idx.toNat v) else none

/-- Array write `buf[i] = v` with a loop counter as index. -/
def storeAt (buf : List Int) (i : Nat) (v : Int) : Option (List Int) :=
  if i < buf.length then some (buf.set i v) else none

/-! ## Single-precision arithmetic of `echo_sample * ECHO_DECAY`

`ECHO_DECAY` is the literal `0.7f`, whose binary32 value is
`11744051 / 2^24` (bit pattern `0x3F333333`).  A 16-bit sample converts to
`float` exactly, and the product is rounded once to 24 significant bits,
ties to even.  Values are carried as integers in units of `2^-24`; every
product of a 16-bit sample lies in the normal range of binary32. -/

/-- Significand of the binary32 constant `0.7f`, in units of `2^-24`. -/
def ECHO_DECAY_MANT : Nat := 11744051

/-- Number of binary digits of `n` (for `n < 2^fuel`). -/
def bitLength : Nat → Nat → Nat
  | 0, _ => 0
  | fuel + 1, n => if n = 0 then 0 else bitLength fuel (n / 2) + 1

/-- Rounding of the magnitude `N * 2^-24` to 24 significant bits, nearest with
ties to even; the result is again in units of `2^-24`. -/
def f32Round (N : Nat) : Nat :=
  let shift := bitLength 64 N - 24
  let q := N / 2 ^ shift
  let r := N % 2 ^ shift
  let q' := if 2 ^ shift < 2 * r ∨ (2 * r = 2 ^ shift ∧ q % 2 = 1) then q + 1 else q
  q' * 2 ^ shift

/-- The `float` product `echo_sample * ECHO_DECAY`, in units of `2^-24`. -/
def echo_times_decay (echo_sample : Int) : Int :=
  Int.sign echo_sample * (f32Round (echo_sample.natAbs * ECHO_DECAY_MANT) : Int)

/-- The conversion `(int32_t)x` of a `float` given in units of `2^-24`: the
fractional part is discarded (truncation toward zero). -/
def float_to_int32 (x : Int) : Int := Int.tdiv x (2 ^ 24)

/-- Spec-side rounding of the exact product `e * 0.7 = 7e/10` to the nearest
integer (a tie goes away from zero). -/
def roundDecay (e : Int) : Int :=
  Int.sign e * (((14 * e.natAbs + 10) / 20 : Nat) : Int)

/-! ## `INMP441/mic_debug/main/media.cpp` -/

namespace MicDebug

def SAMPLE_RATE : Int := 16000
def BUFFER_SAMPLES : Nat := 480
def VOLUME_MULTIPLIER : Int := 16
/-- The macro `(SAMPLE_RATE/4)`: a 250 ms history. -/
def ECHO_BUFFER_LENGTH : Int := Int.tdiv SAMPLE_RATE 4
def ECHO_THRESHOLD : Int := 1000

/-- The globals `echo_buffer` and `echo_write_pos`. -/
structure EchoState where
  echo_buffer : List Int
  echo_write_pos : Int

/-- The read index of iteration `i`: C remainder (sign of the dividend),
then the single correction `if (echo_pos < 0) echo_pos += ECHO_BUFFER_LENGTH`. -/
def echo_pos (echo_write_pos : Int) (i : Nat) : Int :=
  let p := Int.tmod (echo_write_pos - Int.tdiv SAMPLE_RATE 10 + (i : Int)) ECHO_BUFFER_LENGTH
  if p < 0 then p + ECHO_BUFFER_LENGTH else p

/-- The value the threshold branch computes from `input[i] = s` and the echo
sample: 32-bit difference, the two clamping tests, narrowing to `opus_int16`. -/
def cancel_value (s echo_sample : Int) : Int :=
  let result := wrap32 (s - float_to_int32 (echo_times_decay echo_sample))
  let result := if result > 32767 then 32767 else result
  let result := if result < -32768 then -32768 else result
  wrap16 result

/-- The threshold branch of the loop body: the assignment to `input[i]`. -/
def cancel_sample (input : List Int) (i : Nat) (echo_sample : Int) : Option (List Int) := do
  let s ← input[i]?
  storeAt input i (cancel_value s echo_sample)

/-- One pass through the body of the `for` loop of `apply_echo_cancellation`,
at loop counter `i`. -/
def echo_iteration (st : EchoState) (input : List Int) (i : Nat) :
    Option (EchoState × List Int) := do
  let echo_sample ← readAt st.echo_buffer (echo_pos st.echo_write_pos i)
  let input' ← if abs echo_sample > ECHO_THRESHOLD then cancel_sample input i echo_sample
               else some input
  let current ← input'[i]?
  let buf ← writeAt st.echo_buffer st.echo_write_pos current
  some ({ echo_buffer := buf,
          echo_write_pos := Int.tmod (st.echo_write_pos + 1) ECHO_BUFFER_LENGTH }, input')

/-- The value `input[i]` holds after the loop body, given its value `s` before
and the echo sample read. -/
def sample_after (s echo_sample : Int) : Int :=
  if abs echo_sample > ECHO_THRESHOLD then cancel_value s echo_sample else s

/-- The allocation invariant of the echo history: `echo_buffer` has
`ECHO_BUFFER_LENGTH` slots and `echo_write_pos` indexes one of them. -/
def EchoWF (st : EchoState) : Prop :=
  (st.echo_buffer.length : Int) = ECHO_BUFFER_LENGTH ∧
    0 ≤ st.echo_write_pos ∧ st.echo_write_pos < ECHO_BUFFER_LENGTH

/-- State and frame after the first `k` iterations `i = 0, …, k-1` of the loop. -/
def echo_loop (st : EchoState) (input : List Int) : Nat → Option (EchoState × List Int)
  | 0 => some (st, input)
  | k + 1 => (echo_loop st input k).bind fun r => echo_iteration r.1 r.2 k

/-- The function `apply_echo_cancellation(input, length)`: the loop runs
`length` times. -/
def apply_echo_cancellation (st : EchoState) (input : List Int) (length : Nat) :
    Option (EchoState × List Int) :=
  echo_loop st input length

/-- Successive calls of `apply_echo_cancellation`, one per frame, each over
the whole frame; returns the echo state after every call. -/
def echo_frames (st : EchoState) : List (List Int) → Option (List EchoState)
  | [] => some []
  | frame :: rest =>
    (apply_echo_cancellation st frame frame.length).bind fun r =>
      (echo_frames r.1 rest).map fun sts => r.1 :: sts

/-- The value the amplification loop computes from `input_buffer[i] = s`:
32-bit product, the two clamping tests, narrowing to `int16_t`. -/
def gain_value (s : Int) : Int :=
  let amplified := wrap32 (s * VOLUME_MULTIPLIER)
  let amplified := if amplified > 32767 then 32767 else amplified
  let amplified := if amplified < -32768 then -32768 else amplified
  wrap16 amplified

/-- Body of the amplification loop of `audio_loopback`. -/
def gain_iteration (input_buffer output_buffer : List Int) (i : Nat) : Option (List Int) := do
  let s ← input_buffer[i]?
  storeAt output_buffer i (gain_value s)

/-- The array `output_buffer` after the first `k` iterations of the amplification loop. -/
def gain_loop (input_buffer output_buffer : List Int) : Nat → Option (List Int)
  | 0 => some output_buffer
  | k + 1 => (gain_loop input_buffer output_buffer k).bind fun out =>
      gain_iteration input_buffer out k

/-- Body of the mono-to-stereo loop of `audio_loopback`. -/
def stereo_iteration (output_buffer stereo_buffer : List Int) (i : Nat) : Option (List Int) := do
  let left ← output_buffer[i]?
  let sb ← storeAt stereo_buffer (i * 2) left
  let right ← output_buffer[i]?
  storeAt sb (i * 2 + 1) right

/-- The array `stereo_buffer` after the first `k` iterations of the mono-to-stereo loop. -/
def stereo_loop (output_buffer stereo_buffer : List Int) : Nat → Option (List Int)
  | 0 => some stereo_buffer
  | k + 1 => (stereo_loop output_buffer stereo_buffer k).bind fun sb =>
      stereo_iteration output_buffer sb k

/-- The globals that `audio_loopback` works on. -/
structure LoopbackState where
  echo : EchoState
  input_buffer : List Int
  output_buffer : List Int
  debug_counter : Nat

/-- What one call of `audio_loopback` leaves behind: the globals, and the
arguments of the `i2s_write` call (buffer, byte length) when it is made. -/
structure LoopbackOutcome where
  state : LoopbackState
  playback : Option (List Int × Nat)

/-- One call of `audio_loopback`.  `mic` is the outcome of `i2s_read`: `none`
for an error status, otherwise the samples the driver delivered (at most
`BUFFER_SAMPLES * sizeof(int16_t)` bytes are requested).  `stack` gives the
indeterminate initial contents of the local array `stereo_buffer`, and
`speaker_ok` is the status of `i2s_write`. -/
def audio_loopback (st : LoopbackState) (mic : Option (List Int)) (stack : Nat → Int)
    (speaker_ok : Bool) : Option LoopbackOutcome :=
  match mic with
  | none => some { state := st, playback := none }
  | some delivered =>
    let read := delivered.take (BUFFER_SAMPLES * 2 / 2)
    let input_buffer := read ++ st.input_buffer.drop read.length
    (apply_echo_cancellation st.echo input_buffer BUFFER_SAMPLES).bind fun r =>
    (gain_loop r.2 st.output_buffer BUFFER_SAMPLES).bind fun output_buffer =>
    let stereo_buffer := (List.range (BUFFER_SAMPLES * 2)).map stack
    (stereo_loop output_buffer stereo_buffer BUFFER_SAMPLES).bind fun stereo =>
    let debug_counter :=
      if speaker_ok then (if st.debug_counter + 1 ≥ 100 then 0 else st.debug_counter + 1)
      else st.debug_counter
    some { state := { echo := r.1, input_buffer := r.2, output_buffer := output_buffer,
                      debug_counter := debug_counter },
           playback := some (stereo, BUFFER_SAMPLES * 4) }

/-- How far behind the slot written in an iteration the slot read in it lies:
the distance in history slots, modulo the capacity, for the cursor
`echo_write_pos` and the loop counter `i` of that iteration. -/
def lookback (echo_write_pos : Int) (i : Nat) : Int :=
  (echo_write_pos - echo_pos echo_write_pos i) % ECHO_BUFFER_LENGTH

end MicDebug

/-! ## `src/media.cpp` and `src/webrtc.cpp` -/

namespace Firmware

def SAMPLE_RATE : Nat := 8000
def BUFFER_SAMPLES : Nat := 320
def OPUS_OUT_BUFFER_SIZE : Nat := 1276
/-- The size `sizeof(opus_int16)` in bytes. -/
def SIZEOF_OPUS_INT16 : Nat := 2

/-- What `init_audio_decoder` sets up: the channel count given to
`opus_decoder_create` and the number of samples `output_buffer` has room for. -/
structure DecoderState where
  channels : Nat
  output_buffer_samples : Nat

/-- The function `init_audio_decoder`: `opus_decoder_create(SAMPLE_RATE, 2, …)` and
`malloc(BUFFER_SAMPLES * sizeof(opus_int16))`. -/
def init_audio_decoder : DecoderState :=
  { channels := 2
    output_buffer_samples := BUFFER_SAMPLES * SIZEOF_OPUS_INT16 / SIZEOF_OPUS_INT16 }

/-- Contract of the library call `opus_decode(dec, data, len, pcm, frame_size, 0)`
as documented in `opus.h`: `frame_size` is the room in `pcm` counted in samples
per channel; a packet of `n` samples per channel is decoded when
`n ≤ frame_size`, storing `n * channels` interleaved samples and returning `n`;
a longer packet is refused with `OPUS_BUFFER_TOO_SMALL` (-2) and a corrupt one
(`none`) with `OPUS_INVALID_PACKET` (-4).  The result is the return value and
the number of 16-bit samples stored into `pcm`. -/
def opus_decode (channels : Nat) (packet : Option Nat) (frame_size : Nat) : Int × Nat :=
  match packet with
  | none => (-4, 0)
  | some n => if frame_size < n then (-2, 0) else ((n : Int), n * channels)

/-- Effects of one call of `audio_decode`. -/
structure DecodeOutcome where
  decoded_size : Int
  samples_stored : Nat
  playback_bytes : Option Nat

/-- The function `audio_decode`: decode with `frame_size = BUFFER_SAMPLES`,
then `i2s_write` of `BUFFER_SAMPLES * sizeof(opus_int16)` bytes when
`decoded_size > 0`. -/
def audio_decode (dec : DecoderState) (packet : Option Nat) : DecodeOutcome :=
  let r := opus_decode dec.channels packet BUFFER_SAMPLES
  { decoded_size := r.1
    samples_stored := r.2
    playback_bytes := if r.1 > 0 then some (BUFFER_SAMPLES * SIZEOF_OPUS_INT16) else none }

/-- Largest number of samples `opus_decode` may store for the arguments that
`audio_decode` passes. -/
def decode_permitted_samples (dec : DecoderState) : Nat := BUFFER_SAMPLES * dec.channels

/-- Effects of one call of `send_audio`: the capture buffer after the read,
the frame the encoder consumes, the encoder's return value, and the calls of
`peer_connection_send_audio` as (payload buffer, length argument). -/
structure SendOutcome where
  encoder_input_buffer : List Int
  encoder_input : List Int
  encoded_size : Int
  sent : List (List Nat × Int)

/-- The function `send_audio`.  `mic` holds the samples `i2s_read` delivers (its
status is not inspected; `BUFFER_SAMPLES` bytes are requested); `opus_encode`
maps the frame the encoder reads to its return value and the contents of
`encoder_output_buffer`. -/
def send_audio (encoder_input_buffer : List Int) (mic : List Int)
    (opus_encode : List Int → Int × List Nat) : SendOutcome :=
  let read := mic.take (BUFFER_SAMPLES / SIZEOF_OPUS_INT16)
  let buffer := read ++ encoder_input_buffer.drop read.length
  let frame := buffer.take (BUFFER_SAMPLES / 2)
  let r := opus_encode frame
  { encoder_input_buffer := buffer
    encoder_input := frame
    encoded_size := r.1
    sent := [(r.2, r.1)] }

/-- Modelled from the spec: the enumeration `PeerConnectionState` is declared in
`peer.h`, which is not among the sources; the specification lists the session
states New, Connecting, Connected, Disconnected, Closed, Failed. -/
inductive PeerConnectionState
  | PEER_CONNECTION_NEW
  | PEER_CONNECTION_CONNECTING
  | PEER_CONNECTION_CONNECTED
  | PEER_CONNECTION_DISCONNECTED
  | PEER_CONNECTION_CLOSED
  | PEER_CONNECTION_FAILED
  deriving DecidableEq

open PeerConnectionState

/-- Observable calls made by the connection-state handler. -/
inductive Action
  | log (state : PeerConnectionState)
  | esp_restart
  | heap_caps_malloc
  | xTaskCreateStaticPinnedToCore
  deriving DecidableEq

/-- The function `handle_connection_state_change`: the calls it makes, in order. -/
def handle_connection_state_change (state : PeerConnectionState) : List Action :=
  Action.log state ::
    (if state = PEER_CONNECTION_DISCONNECTED ∨ state = PEER_CONNECTION_CLOSED then
       [Action.esp_restart]
     else if state = PEER_CONNECTION_CONNECTED then
       [Action.heap_caps_malloc, Action.xTaskCreateStaticPinnedToCore]
     else [])

/-- Delivery of a sequence of state-change events to the handler.  The call
`esp_restart()` does not return, so events after it are not handled. -/
def deliver : List PeerConnectionState → List Action
  | [] => []
  | state :: rest =>
    let acts := handle_connection_state_change state
    if Action.esp_restart ∈ acts then acts else acts ++ deliver rest

/-- The events the handler gets to handle: those up to and including the
first one whose handling calls `esp_restart()`. -/
def handled : List PeerConnectionState → List PeerConnectionState
  | [] => []
  | state :: rest =>
    if Action.esp_restart ∈ handle_connection_state_change state then [state]
    else state :: handled rest

/-- Number of task creations in a trace. -/
def task_creations (trace : List Action) : Nat :=
  trace.count Action.xTaskCreateStaticPinnedToCore

/-- Number of restart requests in a trace. -/
def restart_requests (trace : List Action) : Nat :=
  trace.count Action.esp_restart

/-- The states the specification calls terminal. -/
def terminal (state : PeerConnectionState) : Bool :=
  state = PEER_CONNECTION_DISCONNECTED ∨ state = PEER_CONNECTION_CLOSED ∨
    state = PEER_CONNECTION_FAILED

/-- The byte count `send_audio` passes to `i2s_read`. -/
def capture_request_bytes : Nat := BUFFER_SAMPLES

/-- The `frame_size` argument `send_audio` passes to `opus_encode`. -/
def encoder_frame_size : Nat := BUFFER_SAMPLES / 2

/-- Contract of the library call `opus_encode` as documented in `opus.h`: at the
sampling rate `Fs` the frame size must correspond to 2.5, 5, 10, 20, 40 or
60 ms of audio. -/
def opus_frame_size_legal (Fs frame_size : Nat) : Bool :=
  decide (400 * frame_size = Fs ∨ 200 * frame_size = Fs ∨ 100 * frame_size = Fs ∨
    50 * frame_size = Fs ∨ 25 * frame_size = Fs ∨ 50 * frame_size = 3 * Fs)

/-! ### `src/http.cpp` -/

/-- The constant `MAX_HTTP_OUTPUT_BUFFER` of `main.h`. -/
def MAX_HTTP_OUTPUT_BUFFER : Int := 2048

/-- Size in bytes of `local_buffer` in `handle_ice_candidate`, the buffer
`http_request` installs as `user_data`. -/
def ANSWER_BUFFER_SIZE : Nat := (MAX_HTTP_OUTPUT_BUFFER + 1).toNat

/-- The events `http_event_handler` switches on.  `HTTP_EVENT_ON_DATA` carries
`evt->data_len`, the bytes `evt->data` points to, and the answer of
`esp_http_client_is_chunked_response`. -/
inductive HttpEvent
  | HTTP_EVENT_REDIRECT
  | HTTP_EVENT_ERROR
  | HTTP_EVENT_ON_CONNECTED
  | HTTP_EVENT_HEADER_SENT
  | HTTP_EVENT_ON_HEADER
  | HTTP_EVENT_ON_DATA (data_len : Int) (data : List Nat) (chunked : Bool)
  | HTTP_EVENT_ON_FINISH
  | HTTP_EVENT_DISCONNECTED

/-- The condition `data_len >= 0` on an event. -/
def HttpEvent.data_len_nonneg : HttpEvent → Prop
  | .HTTP_EVENT_ON_DATA data_len _ _ => 0 ≤ data_len
  | _ => True

/-- The static `output_len`, the buffer `evt->user_data` points to (`none` for a
null pointer), and a record of the `memset` and `memcpy` calls made on that
buffer so far, each as (first offset, byte count). -/
structure HttpState where
  output_len : Int
  user_data : Option (List Nat)
  writes : List (Int × Int)

/-- How a call of the handler ends: it returns `ESP_OK`, it calls
`esp_restart()`, or it writes outside the buffer. -/
inductive HttpResult
  | returned (st : HttpState)
  | restarted (st : HttpState)
  | fault

/-- The call `memset(buf, 0, n)`. -/
def memset_zero (buf : List Nat) (n : Int) : Option (List Nat) :=
  if 0 ≤ n ∧ n.toNat ≤ buf.length then
    some (List.replicate n.toNat 0 ++ buf.drop n.toNat)
  else none

/-- The call `memcpy(buf + offset, src, n)`. -/
def memcpy_at (buf : List Nat) (offset : Int) (src : List Nat) (n : Int) : Option (List Nat) :=
  if 0 ≤ offset ∧ 0 ≤ n ∧ offset.toNat + n.toNat ≤ buf.length then
    some (buf.take offset.toNat ++ (List.range n.toNat).map (fun j => src.getD j 0) ++
      buf.drop (offset.toNat + n.toNat))
  else none

/-- The case `HTTP_EVENT_ON_DATA` of `http_event_handler` for a non-null
`user_data`, after the chunked-response test. -/
def on_data (st : HttpState) (buf : List Nat) (data_len : Int) (data : List Nat) : HttpResult :=
  let cleared := if st.output_len = 0 then memset_zero buf MAX_HTTP_OUTPUT_BUFFER else some buf
  let writes := if st.output_len = 0 then st.writes ++ [(0, MAX_HTTP_OUTPUT_BUFFER)] else st.writes
  match cleared with
  | none => .fault
  | some buf1 =>
    let copy_len :=
      if data_len < MAX_HTTP_OUTPUT_BUFFER - st.output_len then data_len
      else MAX_HTTP_OUTPUT_BUFFER - st.output_len
    if copy_len ≠ 0 then
      match memcpy_at buf1 st.output_len data copy_len with
      | none => .fault
      | some buf2 =>
        .returned { output_len := st.output_len + copy_len, user_data := some buf2,
                    writes := writes ++ [(st.output_len, copy_len)] }
    else
      .returned { output_len := st.output_len + copy_len, user_data := some buf1,
                  writes := writes }

/-- The function `http_event_handler`, one event. -/
def http_event_handler (st : HttpState) : HttpEvent → HttpResult
  | .HTTP_EVENT_ON_DATA data_len data chunked =>
    if chunked then .restarted st
    else
      match st.user_data with
      | none => .returned { st with output_len := st.output_len + 0 }
      | some buf => on_data st buf data_len data
  | .HTTP_EVENT_ON_FINISH => .returned { st with output_len := 0 }
  | .HTTP_EVENT_DISCONNECTED => .returned { st with output_len := 0 }
  | _ => .returned st

/-- The handler called on a sequence of events; nothing is handled after a
restart or a fault. -/
def http_events (st : HttpState) : List HttpEvent → HttpResult
  | [] => .returned st
  | evt :: rest =>
    match http_event_handler st evt with
    | .returned st' => http_events st' rest
    | r => r

/-- The invariant of the handler: `output_len` is in `[0, MAX_HTTP_OUTPUT_BUFFER]`, every
recorded write lies inside the offsets `[0, MAX_HTTP_OUTPUT_BUFFER)`, and the buffer
keeps its size and holds `last` in its final byte. -/
def HttpInv (last : Option Nat) (st : HttpState) : Prop :=
  0 ≤ st.output_len ∧ st.output_len ≤ MAX_HTTP_OUTPUT_BUFFER ∧
  (∀ w, w ∈ st.writes → 0 ≤ w.1 ∧ 0 ≤ w.2 ∧ w.1 + w.2 ≤ MAX_HTTP_OUTPUT_BUFFER) ∧
  ∃ buf, st.user_data = some buf ∧ buf.length = ANSWER_BUFFER_SIZE ∧
    buf[MAX_HTTP_OUTPUT_BUFFER.toNat]? = last

/-- The state a run ends in, when it does not end in a fault. -/
def HttpResult.state : HttpResult → Option HttpState
  | .returned st => some st
  | .restarted st => some st
  | .fault => none

end Firmware

/-! ## Arithmetic lemmas -/

theorem bitLength_zero (fuel : Nat) : bitLength fuel 0 = 0 := by
  cases fuel <;> simp [bitLength]

theorem bitLength_of_range : ∀ (fuel k n : Nat), k < fuel → 2 ^ k ≤ n → n < 2 ^ (k + 1) →
    bitLength fuel n = k + 1 := by
  intro fuel
  induction fuel with
  | zero => intro k n hk; omega
  | succ fuel ih =>
    intro k n hk hlo hhi
    have hn : n ≠ 0 := by
      have : 0 < 2 ^ k := Nat.pos_pow_of_pos _ (by decide)
      omega
    cases k with
    | zero =>
      have h1 : n = 1 := by simp at hlo hhi; omega
      subst h1
      simp [bitLength, bitLength_zero]
    | succ k =>
      have e1 : 2 ^ (k + 1) = 2 * 2 ^ k := by rw [pow_succ]; ring
      have e2 : 2 ^ (k + 1 + 1) = 2 * 2 ^ (k + 1) := by rw [pow_succ]; ring
      have := ih k (n / 2) (by omega) (by omega) (by omega)
      simp [bitLength, hn, this]

/-- For every 16-bit magnitude the rounded single-precision product with `0.7f`,
truncated, is the integer quotient of `7 n` by `10`. -/
theorem f32Round_decay (n : Nat) (hn : n ≤ 32768) :
    f32Round (n * ECHO_DECAY_MANT) / 2 ^ 24 = 7 * n / 10 := by
  by_cases h0 : n = 0
  · subst h0; decide
  · have hN : n * ECHO_DECAY_MANT ≠ 0 := by simp [ECHO_DECAY_MANT, h0]
    obtain ⟨k, hk⟩ : ∃ k, Nat.log2 (n * ECHO_DECAY_MANT) = k := ⟨_, rfl⟩
    have hlo : 2 ^ k ≤ n * ECHO_DECAY_MANT := hk ▸ Nat.log2_self_le hN
    have hhi : n * ECHO_DECAY_MANT < 2 ^ (k + 1) := hk ▸ Nat.lt_log2_self
    have hk38 : k < 39 := by
      by_contra hc
      have : 2 ^ 39 ≤ 2 ^ k := Nat.pow_le_pow_right (by decide) (by omega)
      simp [ECHO_DECAY_MANT] at hlo
      omega
    have hb := bitLength_of_range 64 k _ (by omega) hlo hhi
    unfold f32Round
    rw [hb]
    simp only [ECHO_DECAY_MANT] at hlo hhi ⊢
    interval_cases k <;> simp only [Nat.reducePow, Nat.reduceAdd, Nat.reduceSub] at hlo hhi ⊢ <;>
      split <;> omega

/-- The conversion to `int32_t` of the `float` product is `7 e / 10` truncated toward zero. -/
theorem float_to_int32_decay (e : Int) (he : isInt16 e) :
    float_to_int32 (echo_times_decay e) = Int.tdiv (7 * e) 10 := by
  obtain ⟨h1, h2⟩ := he
  unfold float_to_int32 echo_times_decay
  rcases lt_trichotomy e 0 with hneg | hz | hpos
  · obtain ⟨n, rfl⟩ : ∃ n : Nat, e = -(n : Int) := ⟨e.natAbs, by omega⟩
    have hn : n ≤ 32768 := by omega
    have hs : Int.sign (-(n : Int)) = -1 := Int.sign_eq_neg_one_of_neg hneg
    have key := f32Round_decay n hn
    rw [hs, Int.natAbs_neg, Int.natAbs_ofNat]
    have e1 : (-1 : Int) * ((f32Round (n * ECHO_DECAY_MANT) : Nat) : Int)
        = -((f32Round (n * ECHO_DECAY_MANT) : Nat) : Int) := by ring
    have e2 : (7 : Int) * (-(n : Int)) = -(((7 * n : Nat)) : Int) := by push_cast; ring
    rw [e1, e2, Int.neg_tdiv, Int.neg_tdiv]
    have e3 : ((2 : Int) ^ 24) = ((2 ^ 24 : Nat) : Int) := by norm_num
    have e4 : (10 : Int) = ((10 : Nat) : Int) := rfl
    rw [e3, e4, ← Int.ofNat_tdiv, ← Int.ofNat_tdiv, key]
  · subst hz; decide
  · obtain ⟨n, rfl⟩ : ∃ n : Nat, e = (n : Int) := ⟨e.natAbs, by omega⟩
    have hn : n ≤ 32768 := by omega
    have hs : Int.sign (n : Int) = 1 := Int.sign_eq_one_of_pos hpos
    have key := f32Round_decay n hn
    rw [hs, Int.natAbs_ofNat, one_mul]
    have e2 : (7 : Int) * (n : Int) = (((7 * n : Nat)) : Int) := by push_cast; ring
    have e3 : ((2 : Int) ^ 24) = ((2 ^ 24 : Nat) : Int) := by norm_num
    have e4 : (10 : Int) = ((10 : Nat) : Int) := rfl
    rw [e2, e3, e4, ← Int.ofNat_tdiv, ← Int.ofNat_tdiv, key]

theorem tdiv_decay_bounds (e : Int) (he : isInt16 e) :
    -22937 ≤ Int.tdiv (7 * e) 10 ∧ Int.tdiv (7 * e) 10 ≤ 22936 := by
  obtain ⟨h1, h2⟩ := he
  rcases le_or_lt 0 e with hpos | hneg
  · rw [Int.tdiv_eq_ediv (by omega) (by decide)]; omega
  · have : (7 * e) = -(7 * (-e)) := by ring
    rw [this, Int.neg_tdiv, Int.tdiv_eq_ediv (by omega) (by decide)]; omega

theorem wrap16_of_range (x : Int) (h : isInt16 x) : wrap16 x = x := by
  obtain ⟨h1, h2⟩ := h
  unfold wrap16; omega

theorem wrap32_of_range (x : Int) (h1 : -2147483648 ≤ x) (h2 : x ≤ 2147483647) :
    wrap32 x = x := by
  unfold wrap32; omega

theorem clamp16_range (x : Int) : isInt16 (clamp16 x) := by
  unfold clamp16 isInt16
  constructor
  · exact le_max_left _ _
  · exact max_le (by decide) (min_le_left _ _)

theorem clamp16_of_range (x : Int) (h : isInt16 x) : clamp16 x = x := by
  obtain ⟨h1, h2⟩ := h
  unfold clamp16
  rw [min_eq_right h2, max_eq_right h1]

namespace MicDebug

theorem cancel_value_eq (s e : Int) (hs : isInt16 s) (he : isInt16 e) :
    cancel_value s e = clamp16 (s - Int.tdiv (7 * e) 10) := by
  have hb := tdiv_decay_bounds e he
  obtain ⟨h1, h2⟩ := hs
  unfold cancel_value
  rw [float_to_int32_decay e he, wrap32_of_range _ (by omega) (by omega)]
  generalize Int.tdiv (7 * e) 10 = d at hb ⊢
  simp only []
  unfold clamp16
  by_cases c1 : s - d > 32767
  · rw [if_pos c1, if_neg (by decide), wrap16_of_range _ (by constructor <;> decide)]
    rw [min_eq_left (by omega), max_eq_right (by decide)]
  · rw [if_neg c1]
    by_cases c2 : s - d < -32768
    · rw [if_pos c2, wrap16_of_range _ (by constructor <;> decide)]
      rw [min_eq_right (by omega), max_eq_left (by omega)]
    · rw [if_neg c2, wrap16_of_range _ (by constructor <;> omega)]
      rw [min_eq_right (by omega), max_eq_right (by omega)]

theorem gain_value_eq (s : Int) (hs : isInt16 s) :
    gain_value s = clamp16 (s * 16) := by
  obtain ⟨h1, h2⟩ := hs
  unfold gain_value VOLUME_MULTIPLIER
  rw [wrap32_of_range _ (by omega) (by omega)]
  simp only []
  unfold clamp16
  by_cases c1 : s * 16 > 32767
  · rw [if_pos c1, if_neg (by decide), wrap16_of_range _ (by constructor <;> decide)]
    rw [min_eq_left (by omega), max_eq_right (by decide)]
  · rw [if_neg c1]
    by_cases c2 : s * 16 < -32768
    · rw [if_pos c2, wrap16_of_range _ (by constructor <;> decide)]
      rw [min_eq_right (by omega), max_eq_left (by omega)]
    · rw [if_neg c2, wrap16_of_range _ (by constructor <;> omega)]
      rw [min_eq_right (by omega), max_eq_right (by omega)]

end MicDebug

/-! ## The echo canceller -/

namespace MicDebug

theorem ECHO_BUFFER_LENGTH_eq : ECHO_BUFFER_LENGTH = 4000 := by decide

theorem echo_delay_eq : Int.tdiv SAMPLE_RATE 10 = 1600 := by decide

/-- The read index is the mathematical residue of `w - delay + i`. -/
theorem echo_pos_eq (w : Int) (i : Nat) (h0 : 0 ≤ w) (h1 : w < 4000) :
    echo_pos w i = (w - 1600 + (i : Int)) % 4000 := by
  unfold echo_pos
  rw [ECHO_BUFFER_LENGTH_eq, echo_delay_eq]
  simp only []
  rcases le_or_lt 0 (w - 1600 + (i : Int)) with hx | hx
  · rw [Int.tmod_eq_emod hx (by decide)]
    rw [if_neg (by omega)]
  · have ht : Int.tdiv (w - 1600 + (i : Int)) 4000 = 0 := by
      have e : w - 1600 + (i : Int) = -(-(w - 1600 + (i : Int))) := by ring
      rw [e, Int.neg_tdiv, Int.tdiv_eq_ediv (by omega) (by decide)]
      omega
    rw [Int.tmod_def, ht]
    rw [if_pos (by omega)]
    omega

theorem echo_pos_range (w : Int) (i : Nat) (h0 : 0 ≤ w) (h1 : w < 4000) :
    0 ≤ echo_pos w i ∧ echo_pos w i < 4000 := by
  rw [echo_pos_eq w i h0 h1]; omega

theorem cursor_step (w : Int) (h0 : 0 ≤ w) :
    Int.tmod (w + 1) ECHO_BUFFER_LENGTH = (w + 1) % 4000 := by
  rw [ECHO_BUFFER_LENGTH_eq, Int.tmod_eq_emod (by omega) (by decide)]

theorem set_self_of_getElem? (l : List Int) (i : Nat) (s : Int) (h : l[i]? = some s) :
    l.set i s = l := by
  apply List.ext_getElem?
  intro j
  by_cases hj : i = j
  · subst hj
    rw [List.getElem?_set_self', h]; rfl
  · rw [List.getElem?_set_ne hj]

theorem readAt_total (buf : List Int) (idx : Int) (h0 : 0 ≤ idx)
    (h1 : idx < (buf.length : Int)) : ∃ e, readAt buf idx = some e := by
  have hlt : idx.toNat < buf.length := by omega
  exact ⟨buf[idx.toNat], by simp [readAt, h0, List.getElem?_eq_getElem hlt]⟩

/-- One loop body: the sample is replaced by `sample_after`, that value is
stored in the history at the cursor, and the cursor advances by one slot. -/
theorem echo_iteration_eq (st : EchoState) (input : List Int) (i : Nat) (s e : Int)
    (hwf : EchoWF st) (hs : input[i]? = some s)
    (he : readAt st.echo_buffer (echo_pos st.echo_write_pos i) = some e) :
    echo_iteration st input i =
      some ({ echo_buffer := st.echo_buffer.set st.echo_write_pos.toNat (sample_after s e),
              echo_write_pos := (st.echo_write_pos + 1) % 4000 },
            input.set i (sample_after s e)) := by
  obtain ⟨hlen, hw0, hw1⟩ := hwf
  rw [ECHO_BUFFER_LENGTH_eq] at hlen hw1
  have hi : i < input.length := by
    rcases Nat.lt_or_ge i input.length with h | h
    · exact h
    · rw [List.getElem?_eq_none h] at hs; cases hs
  have hwlt : st.echo_write_pos.toNat < st.echo_buffer.length := by omega
  unfold echo_iteration
  rw [he, cursor_step _ hw0]
  by_cases hthr : abs e > ECHO_THRESHOLD
  · have hv : sample_after s e = cancel_value s e := by simp [sample_after, hthr]
    simp [hthr, cancel_sample, hs, storeAt, hi, writeAt, hw0, hwlt, hv]
  · have hv : sample_after s e = s := by simp [sample_after, hthr]
    simp [hthr, hs, writeAt, hw0, hwlt, hv, set_self_of_getElem? input i s hs]

theorem echo_iteration_total (st : EchoState) (input : List Int) (i : Nat)
    (hwf : EchoWF st) (hi : i < input.length) :
    ∃ e, readAt st.echo_buffer (echo_pos st.echo_write_pos i) = some e ∧
      echo_iteration st input i =
        some ({ echo_buffer := st.echo_buffer.set st.echo_write_pos.toNat
                                  (sample_after input[i] e),
                echo_write_pos := (st.echo_write_pos + 1) % 4000 },
              input.set i (sample_after input[i] e)) := by
  have hr := echo_pos_range st.echo_write_pos i hwf.2.1 (by
    have := hwf.2.2; rw [ECHO_BUFFER_LENGTH_eq] at this; exact this)
  have hlen := hwf.1
  rw [ECHO_BUFFER_LENGTH_eq] at hlen
  obtain ⟨e, he⟩ := readAt_total st.echo_buffer _ hr.1 (by omega)
  exact ⟨e, he, echo_iteration_eq st input i _ e hwf (List.getElem?_eq_getElem hi) he⟩

/-- The loop invariant: after `k` iterations the state is well formed, the
cursor has advanced `k` slots, the frame keeps its length, and the samples
at positions `k` and beyond are untouched. -/
theorem echo_loop_inv (st : EchoState) (input : List Int) (hwf : EchoWF st) :
    ∀ k, k ≤ input.length → ∃ stk ink, echo_loop st input k = some (stk, ink) ∧
      EchoWF stk ∧ ink.length = input.length ∧
      stk.echo_write_pos = (st.echo_write_pos + (k : Int)) % 4000 ∧
      ∀ j, k ≤ j → ink[j]? = input[j]? := by
  intro k
  induction k with
  | zero =>
    intro _
    refine ⟨st, input, rfl, hwf, rfl, ?_, fun _ _ => rfl⟩
    have h1 := hwf.2.1
    have h2 := hwf.2.2
    rw [ECHO_BUFFER_LENGTH_eq] at h2
    simp only [Nat.cast_zero, add_zero]
    omega
  | succ k ih =>
    intro hk
    obtain ⟨stk, ink, hloop, hwfk, hlenk, hcur, hrest⟩ := ih (by omega)
    have hik : k < ink.length := by omega
    obtain ⟨e, _, hit⟩ := echo_iteration_total stk ink k hwfk hik
    refine ⟨{ echo_buffer := stk.echo_buffer.set stk.echo_write_pos.toNat (sample_after ink[k] e),
              echo_write_pos := (stk.echo_write_pos + 1) % 4000 },
            ink.set k (sample_after ink[k] e), ?_, ?_, ?_, ?_, ?_⟩
    · show (echo_loop st input k).bind _ = _
      rw [hloop]; exact hit
    · obtain ⟨hlen, hw0, hw1⟩ := hwfk
      rw [ECHO_BUFFER_LENGTH_eq] at hlen hw1
      unfold EchoWF
      rw [ECHO_BUFFER_LENGTH_eq]
      refine ⟨?_, ?_, ?_⟩
      · simp only [List.length_set]; exact hlen
      · show 0 ≤ (stk.echo_write_pos + 1) % 4000
        omega
      · show (stk.echo_write_pos + 1) % 4000 < 4000
        omega
    · simp only [List.length_set]; exact hlenk
    · show (stk.echo_write_pos + 1) % 4000 = _
      rw [hcur]; push_cast; omega
    · intro j hj
      show (ink.set k _)[j]? = _
      rw [List.getElem?_set_ne (by omega)]
      exact hrest j (by omega)

/-- Later iterations leave earlier samples alone. -/
theorem echo_loop_stable (st : EchoState) (input : List Int) (hwf : EchoWF st)
    (k : Nat) (stk : EchoState) (ink : List Int) (hk : echo_loop st input k = some (stk, ink)) :
    ∀ n, k ≤ n → n ≤ input.length → ∃ stn inn, echo_loop st input n = some (stn, inn) ∧
      ∀ j, j < k → inn[j]? = ink[j]? := by
  intro n hkn
  induction n, hkn using Nat.le_induction with
  | base => intro _; exact ⟨stk, ink, hk, fun _ _ => rfl⟩
  | succ n hkn ih =>
    intro hn
    obtain ⟨stn, inn, hloop, hsame⟩ := ih (by omega)
    obtain ⟨stn', inn', hloop', hwfn, hlenn, _, _⟩ := echo_loop_inv st input hwf n (by omega)
    rw [hloop] at hloop'
    obtain ⟨rfl, rfl⟩ := Prod.mk.inj (Option.some.inj hloop')
    obtain ⟨e, _, hit⟩ := echo_iteration_total stn inn n hwfn (by omega)
    refine ⟨{ echo_buffer := stn.echo_buffer.set stn.echo_write_pos.toNat (sample_after inn[n] e),
              echo_write_pos := (stn.echo_write_pos + 1) % 4000 },
            inn.set n (sample_after inn[n] e), ?_, ?_⟩
    · show (echo_loop st input n).bind _ = _
      rw [hloop]; exact hit
    · intro j hj
      show (inn.set n _)[j]? = _
      rw [List.getElem?_set_ne (by omega)]
      exact hsame j hj

end MicDebug

namespace MicDebug

/-- The sample at position `k` after the whole call is `sample_after` of its
value on entry and of the echo sample read for it in iteration `k`. -/
theorem echo_loop_sample (st : EchoState) (input : List Int) (n k : Nat) (s e : Int)
    (stk : EchoState) (ink : List Int)
    (hwf : EchoWF st) (hn : n ≤ input.length) (hk : k < n) (hs : input[k]? = some s)
    (hloop : echo_loop st input k = some (stk, ink))
    (he : readAt stk.echo_buffer (echo_pos stk.echo_write_pos k) = some e) :
    ∃ stn inn, echo_loop st input n = some (stn, inn) ∧ inn[k]? = some (sample_after s e) := by
  obtain ⟨stk', ink', hloop', hwfk, hlenk, _, hrest⟩ := echo_loop_inv st input hwf k (by omega)
  rw [hloop] at hloop'
  obtain ⟨rfl, rfl⟩ := Prod.mk.inj (Option.some.inj hloop')
  have hsk : ink[k]? = some s := by rw [hrest k (le_refl k)]; exact hs
  have hit := echo_iteration_eq stk ink k s e hwfk hsk he
  have hnext : echo_loop st input (k + 1) = some
      ({ echo_buffer := stk.echo_buffer.set stk.echo_write_pos.toNat (sample_after s e),
         echo_write_pos := (stk.echo_write_pos + 1) % 4000 },
       ink.set k (sample_after s e)) := by
    show (echo_loop st input k).bind _ = _
    rw [hloop]; exact hit
  obtain ⟨stn, inn, hfin, hsame⟩ :=
    echo_loop_stable st input hwf (k + 1) _ _ hnext n (by omega) hn
  refine ⟨stn, inn, hfin, ?_⟩
  rw [hsame k (by omega)]
  exact List.getElem?_set_self' |>.trans (by
    have : k < ink.length := by omega
    simp [List.getElem?_eq_getElem this])

/-- Iteration `k` stores into the history, at the cursor, the value that
`input[k]` holds after the threshold test. -/
theorem echo_loop_store (st : EchoState) (input : List Int) (k : Nat) (s e : Int)
    (stk : EchoState) (ink : List Int)
    (hwf : EchoWF st) (hs : input[k]? = some s)
    (hloop : echo_loop st input k = some (stk, ink))
    (he : readAt stk.echo_buffer (echo_pos stk.echo_write_pos k) = some e) :
    echo_loop st input (k + 1) = some
      ({ echo_buffer := stk.echo_buffer.set stk.echo_write_pos.toNat (sample_after s e),
         echo_write_pos := (stk.echo_write_pos + 1) % 4000 },
       ink.set k (sample_after s e)) ∧
    readAt (stk.echo_buffer.set stk.echo_write_pos.toNat (sample_after s e))
      stk.echo_write_pos = some (sample_after s e) ∧
    (ink.set k (sample_after s e))[k]? = some (sample_after s e) := by
  have hi : k < input.length := by
    rcases Nat.lt_or_ge k input.length with h | h
    · exact h
    · rw [List.getElem?_eq_none h] at hs; cases hs
  obtain ⟨stk', ink', hloop', hwfk, hlenk, _, hrest⟩ := echo_loop_inv st input hwf k (by omega)
  rw [hloop] at hloop'
  obtain ⟨rfl, rfl⟩ := Prod.mk.inj (Option.some.inj hloop')
  have hsk : ink[k]? = some s := by rw [hrest k (le_refl k)]; exact hs
  have hit := echo_iteration_eq stk ink k s e hwfk hsk he
  obtain ⟨hlen, hw0, hw1⟩ := hwfk
  rw [ECHO_BUFFER_LENGTH_eq] at hlen hw1
  have hwlt : stk.echo_write_pos.toNat < stk.echo_buffer.length := by omega
  have hik : k < ink.length := by omega
  refine ⟨?_, ?_, ?_⟩
  · show (echo_loop st input k).bind _ = _
    rw [hloop]; exact hit
  · simp [readAt, hw0, hwlt]
  · simp [hik]

/-- A sequence of whole-frame calls keeps the state well formed and advances
the cursor by the number of samples processed so far. -/
theorem echo_frames_inv : ∀ (frames : List (List Int)) (st : EchoState), EchoWF st →
    ∃ sts, echo_frames st frames = some sts ∧ sts.length = frames.length ∧
      (∀ st', st' ∈ sts → EchoWF st') ∧
      ∀ i, i < frames.length →
        sts[i]?.map EchoState.echo_write_pos =
          some ((st.echo_write_pos + (((frames.take (i + 1)).map List.length).sum : Nat)) % 4000) := by
  intro frames
  induction frames with
  | nil => intro st _; exact ⟨[], rfl, rfl, by simp, by simp⟩
  | cons frame rest ih =>
    intro st hwf
    obtain ⟨st1, in1, h1, hwf1, _, hcur1, _⟩ := echo_loop_inv st frame hwf frame.length (le_refl _)
    obtain ⟨sts, hsts, hlen, hall, hcur⟩ := ih st1 hwf1
    refine ⟨st1 :: sts, ?_, ?_, ?_, ?_⟩
    · show (apply_echo_cancellation st frame frame.length).bind _ = _
      unfold apply_echo_cancellation
      rw [h1]
      show (echo_frames st1 rest).map _ = _
      rw [hsts]; rfl
    · simp [hlen]
    · intro st' hmem
      rcases List.mem_cons.mp hmem with h | h
      · rw [h]; exact hwf1
      · exact hall st' h
    · intro i hi
      cases i with
      | zero => simp [hcur1]
      | succ i =>
        have hi' : i < rest.length := by simpa using hi
        have := hcur i hi'
        simp only [List.getElem?_cons_succ, List.take_succ_cons, List.map_cons, List.sum_cons]
        rw [this, hcur1]
        congr 1
        push_cast
        omega

end MicDebug

namespace MicDebug

theorem echoWF_of (buf : List Int) (w : Int) (hlen : buf.length = 4000) (h0 : 0 ≤ w)
    (h1 : w < 4000) : EchoWF { echo_buffer := buf, echo_write_pos := w } := by
  unfold EchoWF
  rw [ECHO_BUFFER_LENGTH_eq]
  exact ⟨by simp [hlen], h0, h1⟩

theorem readAt_head (a : Int) (l : List Int) : readAt (a :: l) (echo_pos 1600 0) = some a := by
  have h : echo_pos 1600 0 = 0 := by decide
  rw [h]; simp [readAt]

theorem length_history (a : Int) : (a :: List.replicate 3999 (0 : Int)).length = 4000 := by
  rw [List.length_cons, List.length_replicate]

theorem apply_one (st : EchoState) (input : List Int) :
    apply_echo_cancellation st input 1 = echo_iteration st input 0 := rfl

/-- C1 (amended): for every 16-bit input sample `s` at position `k` of a frame and
every 16-bit history value `e` read for it by `apply_echo_cancellation` with
`abs e > ECHO_THRESHOLD`, the call returns and the sample written back is
`clamp16 (s - t)`, where `t` is `e * ECHO_DECAY` with its fractional part discarded
(truncation toward zero), which is the quotient of `7 e` by `10` truncated toward zero. -/
theorem c1_cancel_subtracts_truncated_echo (st : EchoState) (input : List Int) (n k : Nat)
    (s e : Int) (stk : EchoState) (ink : List Int)
    (hwf : EchoWF st) (hn : n ≤ input.length) (hk : k < n)
    (hs : input[k]? = some s) (hs16 : isInt16 s)
    (hloop : apply_echo_cancellation st input k = some (stk, ink))
    (he : readAt stk.echo_buffer (echo_pos stk.echo_write_pos k) = some e)
    (he16 : isInt16 e) (hthr : abs e > ECHO_THRESHOLD) :
    ∃ stn inn, apply_echo_cancellation st input n = some (stn, inn) ∧
      inn[k]? = some (clamp16 (s - Int.tdiv (7 * e) 10)) := by
  obtain ⟨stn, inn, hfin, hval⟩ := echo_loop_sample st input n k s e stk ink hwf hn hk hs hloop he
  refine ⟨stn, inn, hfin, ?_⟩
  rw [hval, ← cancel_value_eq s e hs16 he16]
  simp [sample_after, hthr]

/-- C1 at a concrete input: history value 2000 read for the input sample 100. -/
theorem c1_cancel_subtracts_truncated_echo_witness :
    ∃ stn inn,
      apply_echo_cancellation
        { echo_buffer := 2000 :: List.replicate 3999 0, echo_write_pos := 1600 } [100] 1
        = some (stn, inn) ∧
      inn[0]? = some (clamp16 (100 - Int.tdiv (7 * 2000) 10)) :=
  c1_cancel_subtracts_truncated_echo
    { echo_buffer := 2000 :: List.replicate 3999 0, echo_write_pos := 1600 } [100] 1 0 100 2000
    { echo_buffer := 2000 :: List.replicate 3999 0, echo_write_pos := 1600 } [100]
    (echoWF_of _ _ (length_history 2000) (by decide) (by decide)) (by decide) (by decide) rfl
    (by decide) rfl (readAt_head 2000 _) (by decide) (by decide)

/-- C1 (counterexample): with history value `e = 1001` (above the threshold) read for
the input sample `s = 0`, the sample written back is `-700`, whereas rounding
`1001 * 0.7 = 700.7` to the nearest integer would give `clamp16 (0 - 701) = -701`. -/
theorem c1_round_to_nearest_counterexample :
    readAt (1001 :: List.replicate 3999 0) (echo_pos 1600 0) = some 1001 ∧
    (apply_echo_cancellation
      { echo_buffer := 1001 :: List.replicate 3999 0, echo_write_pos := 1600 } [0] 1).map
        Prod.snd = some [-700] ∧
    clamp16 (0 - roundDecay 1001) = -701 ∧
    (apply_echo_cancellation
      { echo_buffer := 1001 :: List.replicate 3999 0, echo_write_pos := 1600 } [0] 1).map
        Prod.snd ≠ some [clamp16 (0 - roundDecay 1001)] := by
  have hread : readAt (1001 :: List.replicate 3999 0) (echo_pos 1600 0) = some 1001 :=
    readAt_head 1001 _
  have hv : sample_after 0 1001 = -700 := by decide
  have hrun := echo_iteration_eq
    { echo_buffer := 1001 :: List.replicate 3999 0, echo_write_pos := 1600 } [0] 0 0 1001
    (echoWF_of _ _ (length_history 1001) (by decide) (by decide)) rfl hread
  have hres : (apply_echo_cancellation
      { echo_buffer := 1001 :: List.replicate 3999 0, echo_write_pos := 1600 } [0] 1).map
        Prod.snd = some [-700] := by
    rw [apply_one, hrun, hv]; rfl
  have hspec : clamp16 (0 - roundDecay 1001) = -701 := by decide
  refine ⟨hread, hres, hspec, ?_⟩
  rw [hres, hspec]
  decide

end MicDebug

namespace MicDebug

/-- C2 (amended): for every sample processed by `apply_echo_cancellation`, the value
stored into `echo_buffer[echo_write_pos]` is the value `input[i]` holds after the
threshold test: the unchanged input sample when the threshold branch does not fire,
and the cancelled value when it does. -/
theorem c2_history_stores_sample_after_test (st : EchoState) (input : List Int) (k : Nat)
    (s e : Int) (stk : EchoState) (ink : List Int)
    (hwf : EchoWF st) (hs : input[k]? = some s)
    (hloop : apply_echo_cancellation st input k = some (stk, ink))
    (he : readAt stk.echo_buffer (echo_pos stk.echo_write_pos k) = some e) :
    ∃ st' inp', apply_echo_cancellation st input (k + 1) = some (st', inp') ∧
      readAt st'.echo_buffer stk.echo_write_pos = inp'[k]? ∧
      (abs e ≤ ECHO_THRESHOLD → readAt st'.echo_buffer stk.echo_write_pos = some s) ∧
      (abs e > ECHO_THRESHOLD → isInt16 s → isInt16 e →
        readAt st'.echo_buffer stk.echo_write_pos
          = some (clamp16 (s - Int.tdiv (7 * e) 10))) := by
  obtain ⟨hrun, hstore, hcur⟩ := echo_loop_store st input k s e stk ink hwf hs hloop he
  refine ⟨_, _, hrun, ?_, ?_, ?_⟩
  · show readAt (stk.echo_buffer.set stk.echo_write_pos.toNat (sample_after s e))
      stk.echo_write_pos = (ink.set k (sample_after s e))[k]?
    rw [hstore, hcur]
  · intro hthr
    show readAt (stk.echo_buffer.set stk.echo_write_pos.toNat (sample_after s e))
      stk.echo_write_pos = some s
    rw [hstore]
    have : ¬ abs e > ECHO_THRESHOLD := not_lt.mpr hthr
    simp [sample_after, this]
  · intro hthr hs16 he16
    show readAt (stk.echo_buffer.set stk.echo_write_pos.toNat (sample_after s e))
      stk.echo_write_pos = some (clamp16 (s - Int.tdiv (7 * e) 10))
    rw [hstore, ← cancel_value_eq s e hs16 he16]
    simp [sample_after, hthr]

/-- C2 at a concrete input: history value 2000 read for the input sample 100. -/
theorem c2_history_stores_sample_after_test_witness :
    ∃ st' inp',
      apply_echo_cancellation
        { echo_buffer := 2000 :: List.replicate 3999 0, echo_write_pos := 1600 } [100] (0 + 1)
        = some (st', inp') ∧
      readAt st'.echo_buffer 1600 = inp'[0]? ∧
      (abs (2000 : Int) ≤ ECHO_THRESHOLD → readAt st'.echo_buffer 1600 = some 100) ∧
      (abs (2000 : Int) > ECHO_THRESHOLD → isInt16 100 → isInt16 2000 →
        readAt st'.echo_buffer 1600 = some (clamp16 (100 - Int.tdiv (7 * 2000) 10))) :=
  c2_history_stores_sample_after_test
    { echo_buffer := 2000 :: List.replicate 3999 0, echo_write_pos := 1600 } [100] 0 100 2000
    { echo_buffer := 2000 :: List.replicate 3999 0, echo_write_pos := 1600 } [100]
    (echoWF_of _ _ (length_history 2000) (by decide) (by decide)) rfl rfl (readAt_head 2000 _)

/-- C2 (counterexample): with the history value `2000` read for the input sample `0`,
the threshold branch fires and the value stored into `echo_buffer[1600]` (the cursor
slot) is the cancelled value `-1400`, not the value `0` that `input[0]` had on entry. -/
theorem c2_stores_cancelled_counterexample :
    ([0] : List Int)[0]? = some 0 ∧
    (apply_echo_cancellation
      { echo_buffer := 2000 :: List.replicate 3999 0, echo_write_pos := 1600 } [0] 1).bind
        (fun r => readAt r.1.echo_buffer 1600) = some (-1400) ∧
    (apply_echo_cancellation
      { echo_buffer := 2000 :: List.replicate 3999 0, echo_write_pos := 1600 } [0] 1).bind
        (fun r => readAt r.1.echo_buffer 1600) ≠ ([0] : List Int)[0]? := by
  have hv : sample_after 0 2000 = -1400 := by decide
  obtain ⟨hrun, hstore, _⟩ := echo_loop_store
    { echo_buffer := 2000 :: List.replicate 3999 0, echo_write_pos := 1600 } [0] 0 0 2000
    { echo_buffer := 2000 :: List.replicate 3999 0, echo_write_pos := 1600 } [0]
    (echoWF_of _ _ (length_history 2000) (by decide) (by decide)) rfl rfl (readAt_head 2000 _)
  have hres : (apply_echo_cancellation
      { echo_buffer := 2000 :: List.replicate 3999 0, echo_write_pos := 1600 } [0] 1).bind
        (fun r => readAt r.1.echo_buffer 1600) = some (-1400) := by
    show (echo_loop _ _ (0 + 1)).bind _ = _
    rw [hrun, ← hv]
    exact hstore
  refine ⟨rfl, hres, ?_⟩
  rw [hres]
  decide

/-- C3: for every input sample `s` at position `k` of a frame and every history value
`e` read for it by `apply_echo_cancellation` with `abs e ≤ ECHO_THRESHOLD`, the call
returns and leaves the sample unchanged. -/
theorem c3_below_threshold_unchanged (st : EchoState) (input : List Int) (n k : Nat)
    (s e : Int) (stk : EchoState) (ink : List Int)
    (hwf : EchoWF st) (hn : n ≤ input.length) (hk : k < n) (hs : input[k]? = some s)
    (hloop : apply_echo_cancellation st input k = some (stk, ink))
    (he : readAt stk.echo_buffer (echo_pos stk.echo_write_pos k) = some e)
    (hthr : abs e ≤ ECHO_THRESHOLD) :
    ECHO_THRESHOLD = 1000 ∧
    ∃ stn inn, apply_echo_cancellation st input n = some (stn, inn) ∧
      inn[k]? = some s ∧ inn[k]? = input[k]? := by
  obtain ⟨stn, inn, hfin, hval⟩ := echo_loop_sample st input n k s e stk ink hwf hn hk hs hloop he
  have hno : ¬ abs e > ECHO_THRESHOLD := not_lt.mpr hthr
  have hv : sample_after s e = s := by simp [sample_after, hno]
  rw [hv] at hval
  exact ⟨rfl, stn, inn, hfin, hval, by rw [hval, hs]⟩

/-- C3 at a concrete input: history value 1000, exactly the threshold, read for the input sample 100. -/
theorem c3_below_threshold_unchanged_witness :
    ECHO_THRESHOLD = 1000 ∧
    ∃ stn inn,
      apply_echo_cancellation
        { echo_buffer := 1000 :: List.replicate 3999 0, echo_write_pos := 1600 } [100] 1
        = some (stn, inn) ∧
      inn[0]? = some 100 ∧ inn[0]? = ([100] : List Int)[0]? :=
  c3_below_threshold_unchanged
    { echo_buffer := 1000 :: List.replicate 3999 0, echo_write_pos := 1600 } [100] 1 0 100 1000
    { echo_buffer := 1000 :: List.replicate 3999 0, echo_write_pos := 1600 } [100]
    (echoWF_of _ _ (length_history 1000) (by decide) (by decide)) (by decide) (by decide) rfl
    rfl (readAt_head 1000 _) (by decide)

/-- C9: for every starting cursor in `[0, C)` with `C = ECHO_BUFFER_LENGTH = 4000` and
every frame of `n` samples, `apply_echo_cancellation` returns with the cursor at
`(w + n) mod C`; after each of its samples the cursor is `(w + k) mod C`, inside
`[0, C)`; and over every sequence of frames the cursor after each call is the start
cursor plus the number of samples processed so far, modulo `C`, inside `[0, C)`. -/
theorem c9_cursor_advances_mod_capacity (st : EchoState) (input : List Int) (n : Nat)
    (hwf : EchoWF st) (hn : n ≤ input.length) :
    ECHO_BUFFER_LENGTH = 4000 ∧
    (∃ stn inn, apply_echo_cancellation st input n = some (stn, inn) ∧
      stn.echo_write_pos = (st.echo_write_pos + (n : Int)) % ECHO_BUFFER_LENGTH) ∧
    (∀ k, k ≤ n → ∃ stk ink, apply_echo_cancellation st input k = some (stk, ink) ∧
      stk.echo_write_pos = (st.echo_write_pos + (k : Int)) % ECHO_BUFFER_LENGTH ∧
      0 ≤ stk.echo_write_pos ∧ stk.echo_write_pos < ECHO_BUFFER_LENGTH) ∧
    (∀ frames : List (List Int), ∃ sts, echo_frames st frames = some sts ∧
      sts.length = frames.length ∧
      ∀ i, i < frames.length → ∃ sti, sts[i]? = some sti ∧
        sti.echo_write_pos =
          (st.echo_write_pos + (((frames.take (i + 1)).map List.length).sum : Nat))
            % ECHO_BUFFER_LENGTH ∧
        0 ≤ sti.echo_write_pos ∧ sti.echo_write_pos < ECHO_BUFFER_LENGTH) := by
  refine ⟨ECHO_BUFFER_LENGTH_eq, ?_, ?_, ?_⟩
  · obtain ⟨stn, inn, hrun, _, _, hcur, _⟩ := echo_loop_inv st input hwf n hn
    exact ⟨stn, inn, hrun, by rw [ECHO_BUFFER_LENGTH_eq]; exact hcur⟩
  · intro k hk
    obtain ⟨stk, ink, hrun, hwfk, _, hcur, _⟩ := echo_loop_inv st input hwf k (by omega)
    exact ⟨stk, ink, hrun, by rw [ECHO_BUFFER_LENGTH_eq]; exact hcur, hwfk.2.1, hwfk.2.2⟩
  · intro frames
    obtain ⟨sts, hrun, hlen, hall, hcur⟩ := echo_frames_inv frames st hwf
    refine ⟨sts, hrun, hlen, ?_⟩
    intro i hi
    have hi' : i < sts.length := by omega
    have hget : sts[i]? = some sts[i] := List.getElem?_eq_getElem hi'
    have hc := hcur i hi
    rw [hget] at hc
    have hc' := Option.some.inj hc
    have hmem : sts[i] ∈ sts := List.getElem_mem hi'
    have hw := hall _ hmem
    exact ⟨sts[i], hget, by rw [ECHO_BUFFER_LENGTH_eq]; exact hc', hw.2.1, hw.2.2⟩

/-- C9 at a concrete input: a frame of three samples starting at the last slot, so the cursor wraps. -/
theorem c9_cursor_advances_mod_capacity_witness :
    ECHO_BUFFER_LENGTH = 4000 ∧
    (∃ stn inn, apply_echo_cancellation
        { echo_buffer := 0 :: List.replicate 3999 0, echo_write_pos := 3999 } [1, 2, 3] 3
        = some (stn, inn) ∧
      stn.echo_write_pos = (3999 + ((3 : Nat) : Int)) % ECHO_BUFFER_LENGTH) ∧
    (∀ k, k ≤ 3 → ∃ stk ink, apply_echo_cancellation
        { echo_buffer := 0 :: List.replicate 3999 0, echo_write_pos := 3999 } [1, 2, 3] k
        = some (stk, ink) ∧
      stk.echo_write_pos = (3999 + (k : Int)) % ECHO_BUFFER_LENGTH ∧
      0 ≤ stk.echo_write_pos ∧ stk.echo_write_pos < ECHO_BUFFER_LENGTH) ∧
    (∀ frames : List (List Int), ∃ sts, echo_frames
        { echo_buffer := 0 :: List.replicate 3999 0, echo_write_pos := 3999 } frames = some sts ∧
      sts.length = frames.length ∧
      ∀ i, i < frames.length → ∃ sti, sts[i]? = some sti ∧
        sti.echo_write_pos =
          (3999 + (((frames.take (i + 1)).map List.length).sum : Nat)) % ECHO_BUFFER_LENGTH ∧
        0 ≤ sti.echo_write_pos ∧ sti.echo_write_pos < ECHO_BUFFER_LENGTH) :=
  c9_cursor_advances_mod_capacity
    { echo_buffer := 0 :: List.replicate 3999 0, echo_write_pos := 3999 } [1, 2, 3] 3
    (echoWF_of _ _ (length_history 0) (by decide) (by decide)) (by decide)

end MicDebug

/-! ## The gain stage -/

namespace MicDebug

/-- The amplification loop invariant: the first `k` outputs are the gain values of the
first `k` inputs, the rest of `output_buffer` is untouched. -/
theorem gain_loop_inv (input_buffer output_buffer : List Int) :
    ∀ k, k ≤ input_buffer.length → k ≤ output_buffer.length →
      ∃ out, gain_loop input_buffer output_buffer k = some out ∧
        out.length = output_buffer.length ∧
        (∀ i, i < k → out[i]? = input_buffer[i]?.map gain_value) ∧
        ∀ i, k ≤ i → out[i]? = output_buffer[i]? := by
  intro k
  induction k with
  | zero => intro _ _; exact ⟨output_buffer, rfl, rfl, fun i hi => by omega, fun _ _ => rfl⟩
  | succ k ih =>
    intro hin hout
    obtain ⟨out, hrun, hlen, hdone, hrest⟩ := ih (by omega) (by omega)
    have hik : k < input_buffer.length := by omega
    have hok : k < out.length := by omega
    refine ⟨out.set k (gain_value input_buffer[k]), ?_, ?_, ?_, ?_⟩
    · show (gain_loop input_buffer output_buffer k).bind _ = _
      rw [hrun]
      simp [gain_iteration, storeAt, hik, hok]
    · simp only [List.length_set]; exact hlen
    · intro i hi
      by_cases hik' : i = k
      · subst hik'
        simp [hik, hok]
      · rw [List.getElem?_set_ne (by omega)]
        exact hdone i (by omega)
    · intro i hi
      rw [List.getElem?_set_ne (by omega)]
      exact hrest i (by omega)

/-- C10: for every frame of 16-bit samples the gain loop of `audio_loopback` returns,
and each output sample is `clamp16 (s * VOLUME_MULTIPLIER)` with `VOLUME_MULTIPLIER = 16`,
the 32-bit product being exact; the output lies in `[-32768, 32767]`, is `0` for
`s = 0`, and equals `s * 16` whenever that product is in the 16-bit range. -/
theorem c10_gain_is_saturating_product (input_buffer output_buffer : List Int)
    (hin : BUFFER_SAMPLES ≤ input_buffer.length) (hout : BUFFER_SAMPLES ≤ output_buffer.length)
    (h16 : ∀ s, s ∈ input_buffer → isInt16 s) :
    VOLUME_MULTIPLIER = 16 ∧
    ∃ out, gain_loop input_buffer output_buffer BUFFER_SAMPLES = some out ∧
      ∀ i, i < BUFFER_SAMPLES → ∃ s v, input_buffer[i]? = some s ∧ out[i]? = some v ∧
        wrap32 (s * VOLUME_MULTIPLIER) = s * VOLUME_MULTIPLIER ∧
        v = clamp16 (s * VOLUME_MULTIPLIER) ∧
        isInt16 v ∧ (s = 0 → v = 0) ∧ (isInt16 (s * 16) → v = s * 16) := by
  refine ⟨rfl, ?_⟩
  obtain ⟨out, hrun, _, hdone, _⟩ := gain_loop_inv input_buffer output_buffer BUFFER_SAMPLES hin hout
  refine ⟨out, hrun, ?_⟩
  intro i hi
  have hil : i < input_buffer.length := by omega
  have hs16 : isInt16 input_buffer[i] := h16 _ (List.getElem_mem hil)
  have hget : input_buffer[i]? = some input_buffer[i] := List.getElem?_eq_getElem hil
  have hval := gain_value_eq input_buffer[i] hs16
  refine ⟨input_buffer[i], gain_value input_buffer[i], hget, ?_, ?_, ?_, ?_, ?_, ?_⟩
  · rw [hdone i hi, hget]; rfl
  · obtain ⟨h1, h2⟩ := hs16
    unfold VOLUME_MULTIPLIER
    exact wrap32_of_range _ (by omega) (by omega)
  · rw [hval]; rfl
  · rw [hval]; exact clamp16_range _
  · intro h0
    rw [hval, h0]; decide
  · intro hr
    rw [hval]; exact clamp16_of_range _ hr

/-- C10 at a concrete input: a frame of 480 samples of value 3000. -/
theorem c10_gain_is_saturating_product_witness :
    VOLUME_MULTIPLIER = 16 ∧
    ∃ out, gain_loop (List.replicate 480 3000) (List.replicate 480 0) BUFFER_SAMPLES
        = some out ∧
      ∀ i, i < BUFFER_SAMPLES → ∃ s v, (List.replicate 480 (3000 : Int))[i]? = some s ∧
        out[i]? = some v ∧
        wrap32 (s * VOLUME_MULTIPLIER) = s * VOLUME_MULTIPLIER ∧
        v = clamp16 (s * VOLUME_MULTIPLIER) ∧
        isInt16 v ∧ (s = 0 → v = 0) ∧ (isInt16 (s * 16) → v = s * 16) :=
  c10_gain_is_saturating_product (List.replicate 480 3000) (List.replicate 480 0)
    (by rw [List.length_replicate]; decide) (by rw [List.length_replicate]; decide)
    (fun s hs => by rw [List.eq_of_mem_replicate hs]; decide)

end MicDebug

/-! ## The duplex pipeline and the connection-state handler -/

namespace Firmware

open PeerConnectionState

theorem task_creations_append (a b : List Action) :
    task_creations (a ++ b) = task_creations a + task_creations b := by
  unfold task_creations
  exact List.count_append _ _ _

/-- C4 (amended): the connection-state handler creates one `audio_publisher` task at every
delivery of `PEER_CONNECTION_CONNECTED` and none for any other state; for every event
sequence the number of task creations equals the number of `PEER_CONNECTION_CONNECTED`
events among those the handler gets to handle. -/
theorem c4_one_task_per_connected_delivery :
    (∀ state, task_creations (handle_connection_state_change state) =
      if state = PEER_CONNECTION_CONNECTED then 1 else 0) ∧
    ∀ events, task_creations (deliver events) =
      (handled events).count PEER_CONNECTION_CONNECTED := by
  have hone : ∀ state, task_creations (handle_connection_state_change state) =
      if state = PEER_CONNECTION_CONNECTED then 1 else 0 := by
    intro state; cases state <;> decide
  refine ⟨hone, ?_⟩
  intro events
  induction events with
  | nil => rfl
  | cons state rest ih =>
    unfold deliver handled
    by_cases hr : Action.esp_restart ∈ handle_connection_state_change state
    · simp only [hr, if_true]
      rw [hone]
      cases state <;> simp_all [handle_connection_state_change]
    · simp only [hr, if_false]
      rw [task_creations_append, ih, hone, List.count_cons]
      by_cases hc : state = PEER_CONNECTION_CONNECTED
      · simp [hc]; omega
      · have hc' : ¬ (state == PEER_CONNECTION_CONNECTED) = true := by simpa using hc
        simp [hc, hc']

/-- C4 (counterexample): when `PEER_CONNECTION_CONNECTED` is delivered twice, the second
delivery creates a task again and the total number of task creations is 2, not 1. -/
theorem c4_second_connected_counterexample :
    task_creations (handle_connection_state_change PEER_CONNECTION_CONNECTED) = 1 ∧
    task_creations (deliver [PEER_CONNECTION_CONNECTED, PEER_CONNECTION_CONNECTED]) = 2 ∧
    task_creations (deliver [PEER_CONNECTION_CONNECTED, PEER_CONNECTION_CONNECTED]) ≠ 1 := by
  decide

/-- C5 (code evaluated at the failing input): `PEER_CONNECTION_FAILED` is a terminal state,
yet handling it issues no restart request, while `PEER_CONNECTION_DISCONNECTED` and
`PEER_CONNECTION_CLOSED` issue exactly one and the non-terminal states none. -/
theorem c5_failed_state_issues_no_restart :
    terminal PEER_CONNECTION_FAILED = true ∧
    restart_requests (handle_connection_state_change PEER_CONNECTION_FAILED) = 0 ∧
    restart_requests (handle_connection_state_change PEER_CONNECTION_DISCONNECTED) = 1 ∧
    restart_requests (handle_connection_state_change PEER_CONNECTION_CLOSED) = 1 ∧
    ∀ state, terminal state = false →
      restart_requests (handle_connection_state_change state) = 0 := by
  refine ⟨by decide, by decide, by decide, by decide, ?_⟩
  intro state; cases state <;> decide

/-- C6 (code evaluated at the failing input): the decoder is created with 2 channels, so the
`opus_decode` call of `audio_decode` may store `BUFFER_SAMPLES * 2 = 640` samples, and does
so for a packet of 320 samples per channel, while `output_buffer` has room for 320. -/
theorem c6_decoder_may_overrun_output_buffer :
    decode_permitted_samples init_audio_decoder = 640 ∧
    init_audio_decoder.output_buffer_samples = 320 ∧
    (audio_decode init_audio_decoder (some 320)).samples_stored = 640 ∧
    (audio_decode init_audio_decoder (some 320)).decoded_size = 320 ∧
    ¬ (decode_permitted_samples init_audio_decoder ≤ init_audio_decoder.output_buffer_samples) := by
  decide

/-- A full capture read overwrites the frame the encoder consumes: the encoder input is
the delivered samples. -/
theorem send_audio_encoder_input (encoder_input_buffer mic : List Int)
    (opus_encode : List Int → Int × List Nat) (hmic : mic.length = 160) :
    (send_audio encoder_input_buffer mic opus_encode).encoder_input = mic := by
  have h160 : BUFFER_SAMPLES / SIZEOF_OPUS_INT16 = 160 := by decide
  have h160' : BUFFER_SAMPLES / 2 = 160 := by decide
  have ht : mic.take 160 = mic := List.take_of_length_le (by omega)
  show ((mic.take (BUFFER_SAMPLES / SIZEOF_OPUS_INT16) ++
      encoder_input_buffer.drop (mic.take (BUFFER_SAMPLES / SIZEOF_OPUS_INT16)).length).take
        (BUFFER_SAMPLES / 2)) = mic
  rw [h160, h160', ht, List.take_append_of_le_length (by omega), ht]

/-- C7 (amended): in duplex-send mode the frame handed to the encoder is the raw captured
frame: for every capture of `BUFFER_SAMPLES` bytes, that is 160 samples, the encoder
input of `send_audio` is exactly the captured samples, whatever the encoder and the
previous contents of the buffer. -/
theorem c7_encoder_input_is_raw_capture (encoder_input_buffer mic : List Int)
    (opus_encode : List Int → Int × List Nat)
    (hmic : mic.length = BUFFER_SAMPLES / SIZEOF_OPUS_INT16) :
    BUFFER_SAMPLES / SIZEOF_OPUS_INT16 = 160 ∧
    (send_audio encoder_input_buffer mic opus_encode).encoder_input = mic :=
  ⟨by decide, send_audio_encoder_input encoder_input_buffer mic opus_encode hmic⟩

/-- C7 at a concrete input: a capture of 160 samples of value 7. -/
theorem c7_encoder_input_is_raw_capture_witness :
    BUFFER_SAMPLES / SIZEOF_OPUS_INT16 = 160 ∧
    (send_audio (List.replicate 320 0) (List.replicate 160 7)
      (fun _ => (3, [1, 2, 3]))).encoder_input = List.replicate 160 7 :=
  c7_encoder_input_is_raw_capture (List.replicate 320 0) (List.replicate 160 7)
    (fun _ => (3, [1, 2, 3])) (by rw [List.length_replicate]; decide)

/-- C8 (code evaluated at the failing input): when the encoder returns the negative length
`-3`, `send_audio` still makes its call of `peer_connection_send_audio`, passing the
output buffer and the length `-3`; in fact it makes exactly one such call whatever the
encoder returns. -/
theorem c8_rejected_frame_is_still_sent :
    (send_audio (List.replicate 320 0) (List.replicate 160 0)
      (fun _ => (-3, []))).encoded_size = -3 ∧
    (send_audio (List.replicate 320 0) (List.replicate 160 0)
      (fun _ => (-3, []))).sent = [([], -3)] ∧
    ∀ (encoder_input_buffer mic : List Int) (opus_encode : List Int → Int × List Nat),
      (send_audio encoder_input_buffer mic opus_encode).sent.length = 1 := by
  refine ⟨rfl, rfl, ?_⟩
  intro _ _ _; rfl

end Firmware

theorem replicate_head (n : Nat) (a : Int) : (List.replicate (n + 1) a)[0]? = some a := by
  rw [List.replicate_succ]; simp

/-- C7 (counterexample): for a captured frame of 160 zero samples and an echo history
whose slot read for sample 0 holds `2000`, echo cancellation of the frame yields `-1400`
at position 0, whereas the frame `send_audio` hands to the encoder is the raw capture. -/
theorem c7_raw_capture_counterexample :
    (Firmware.send_audio (List.replicate 320 0) (List.replicate 160 0)
      (fun _ => (3, [1, 2, 3]))).encoder_input = List.replicate 160 0 ∧
    ∃ stn inn,
      MicDebug.apply_echo_cancellation
        { echo_buffer := 2000 :: List.replicate 3999 0, echo_write_pos := 1600 }
        (List.replicate 160 0) 160 = some (stn, inn) ∧
      inn[0]? = some (-1400) ∧
      (Firmware.send_audio (List.replicate 320 0) (List.replicate 160 0)
        (fun _ => (3, [1, 2, 3]))).encoder_input ≠ inn := by
  have hraw := Firmware.send_audio_encoder_input (List.replicate 320 0) (List.replicate 160 0)
    (fun _ => (3, [1, 2, 3])) (by rw [List.length_replicate])
  have hv : MicDebug.sample_after 0 2000 = -1400 := by decide
  obtain ⟨stn, inn, hrun, hval⟩ := MicDebug.echo_loop_sample
    { echo_buffer := 2000 :: List.replicate 3999 0, echo_write_pos := 1600 }
    (List.replicate 160 0) 160 0 0 2000
    { echo_buffer := 2000 :: List.replicate 3999 0, echo_write_pos := 1600 }
    (List.replicate 160 0)
    (MicDebug.echoWF_of _ _ (MicDebug.length_history 2000) (by decide) (by decide))
    (by rw [List.length_replicate]) (by decide) (replicate_head 159 0) rfl (MicDebug.readAt_head 2000 _)
  rw [hv] at hval
  refine ⟨hraw, stn, inn, hrun, hval, ?_⟩
  rw [hraw]
  intro heq
  rw [← heq, replicate_head 159 0] at hval
  exact absurd (Option.some.inj hval) (by decide)

/-! ## Read index, lookback and sample range of the echo canceller -/

namespace MicDebug

theorem writeAt_total (buf : List Int) (idx v : Int) (h0 : 0 ≤ idx)
    (h1 : idx < (buf.length : Int)) : ∃ buf', writeAt buf idx v = some buf' := by
  have hlt : idx.toNat < buf.length := by omega
  exact ⟨buf.set idx.toNat v, by simp [writeAt, h0, hlt]⟩

theorem lookback_eq (w : Int) (i : Nat) (h0 : 0 ≤ w) (h1 : w < 4000) :
    lookback w i = (1600 - (i : Int)) % 4000 := by
  unfold lookback
  rw [ECHO_BUFFER_LENGTH_eq, echo_pos_eq w i h0 h1]
  omega

theorem sample_after_int16 (s e : Int) (hs : isInt16 s) (he : isInt16 e) :
    isInt16 (sample_after s e) := by
  unfold sample_after
  by_cases hthr : abs e > ECHO_THRESHOLD
  · rw [if_pos hthr, cancel_value_eq s e hs he]; exact clamp16_range _
  · rw [if_neg hthr]; exact hs

/-- The loop keeps every history slot and every frame sample in the 16-bit range. -/
theorem echo_loop_int16 (st : EchoState) (input : List Int) (hwf : EchoWF st)
    (hbuf : ∀ x, x ∈ st.echo_buffer → isInt16 x) (hin : ∀ x, x ∈ input → isInt16 x) :
    ∀ k, k ≤ input.length → ∃ stk ink, echo_loop st input k = some (stk, ink) ∧
      (∀ x, x ∈ stk.echo_buffer → isInt16 x) ∧ ∀ x, x ∈ ink → isInt16 x := by
  intro k
  induction k with
  | zero => intro _; exact ⟨st, input, rfl, hbuf, hin⟩
  | succ k ih =>
    intro hk
    obtain ⟨stk, ink, hloop, hbufk, hink⟩ := ih (by omega)
    obtain ⟨stk', ink', hloop', hwfk, hlenk, _, _⟩ := echo_loop_inv st input hwf k (by omega)
    rw [hloop] at hloop'
    obtain ⟨rfl, rfl⟩ := Prod.mk.inj (Option.some.inj hloop')
    have hik : k < ink.length := by omega
    obtain ⟨e, he, hit⟩ := echo_iteration_total stk ink k hwfk hik
    have he16 : isInt16 e := by
      apply hbufk
      unfold readAt at he
      split at he
      · exact List.mem_iff_getElem?.mpr ⟨_, he⟩
      · cases he
    have hs16 : isInt16 ink[k] := hink _ (List.getElem_mem hik)
    have hv := sample_after_int16 ink[k] e hs16 he16
    refine ⟨{ echo_buffer := stk.echo_buffer.set stk.echo_write_pos.toNat (sample_after ink[k] e),
              echo_write_pos := (stk.echo_write_pos + 1) % 4000 },
            ink.set k (sample_after ink[k] e), ?_, ?_, ?_⟩
    · show (echo_loop st input k).bind _ = _
      rw [hloop]; exact hit
    · intro x hx
      rcases List.mem_or_eq_of_mem_set hx with h | h
      · exact hbufk x h
      · rw [h]; exact hv
    · intro x hx
      rcases List.mem_or_eq_of_mem_set hx with h | h
      · exact hink x h
      · rw [h]; exact hv

/-- C14: when the history slot read for an input sample `s` holds `5000`, above the threshold
`1000`, the truncated product with `ECHO_DECAY` is `3500` and `apply_echo_cancellation`
replaces the sample by `clamp16 (s - 3500)`, which is `s - 3500` when that is in the
16-bit range. -/
theorem c14_echo_of_5000_subtracts_3500 (st : EchoState) (input : List Int) (n k : Nat)
    (s : Int) (stk : EchoState) (ink : List Int)
    (hwf : EchoWF st) (hn : n ≤ input.length) (hk : k < n)
    (hs : input[k]? = some s) (hs16 : isInt16 s)
    (hloop : apply_echo_cancellation st input k = some (stk, ink))
    (he : readAt stk.echo_buffer (echo_pos stk.echo_write_pos k) = some 5000) :
    ECHO_THRESHOLD = 1000 ∧ float_to_int32 (echo_times_decay 5000) = 3500 ∧
    ∃ stn inn, apply_echo_cancellation st input n = some (stn, inn) ∧
      inn[k]? = some (clamp16 (s - 3500)) ∧
      (isInt16 (s - 3500) → inn[k]? = some (s - 3500)) := by
  obtain ⟨stn, inn, hfin, hval⟩ :=
    echo_loop_sample st input n k s 5000 stk ink hwf hn hk hs hloop he
  have hthr : abs (5000 : Int) > ECHO_THRESHOLD := by decide
  have hv : sample_after s 5000 = clamp16 (s - 3500) := by
    have h1 : sample_after s 5000 = cancel_value s 5000 := by
      unfold sample_after; rw [if_pos hthr]
    have h2 : Int.tdiv (7 * 5000) 10 = 3500 := by decide
    rw [h1, cancel_value_eq s 5000 hs16 (by decide), h2]
  rw [hv] at hval
  refine ⟨rfl, by decide, stn, inn, hfin, hval, ?_⟩
  intro hr
  rw [hval, clamp16_of_range _ hr]

/-- C14 at a concrete input: the history value 5000 read for the input sample 4000. -/
theorem c14_echo_of_5000_subtracts_3500_witness :
    ECHO_THRESHOLD = 1000 ∧ float_to_int32 (echo_times_decay 5000) = 3500 ∧
    ∃ stn inn,
      apply_echo_cancellation
        { echo_buffer := 5000 :: List.replicate 3999 0, echo_write_pos := 1600 } [4000] 1
        = some (stn, inn) ∧
      inn[0]? = some (clamp16 (4000 - 3500)) ∧
      (isInt16 (4000 - 3500) → inn[0]? = some (4000 - 3500)) :=
  c14_echo_of_5000_subtracts_3500
    { echo_buffer := 5000 :: List.replicate 3999 0, echo_write_pos := 1600 } [4000] 1 0 4000
    { echo_buffer := 5000 :: List.replicate 3999 0, echo_write_pos := 1600 } [4000]
    (echoWF_of _ _ (length_history 5000) (by decide) (by decide)) (by decide) (by decide) rfl
    (by decide) rfl (readAt_head 5000 _)

/-- C15: for every frame of 16-bit samples, every history of 16-bit values and every cursor
in `[0, C)`, `apply_echo_cancellation` returns and each sample of the frame lies in
`[-32768, 32767]`; the 32-bit difference of a sample and the truncated scaled echo is
exact (no overflow), and the value written is that difference saturated by `clamp16`,
which the narrowing to 16 bits leaves as it is. -/
theorem c15_cancelled_samples_in_16_bit_range (st : EchoState) (input : List Int) (n : Nat)
    (hwf : EchoWF st) (hn : n ≤ input.length)
    (hbuf : ∀ x, x ∈ st.echo_buffer → isInt16 x) (hin : ∀ x, x ∈ input → isInt16 x) :
    (∃ stn inn, apply_echo_cancellation st input n = some (stn, inn) ∧
      ∀ x, x ∈ inn → isInt16 x) ∧
    ∀ s e, isInt16 s → isInt16 e →
      wrap32 (s - float_to_int32 (echo_times_decay e))
        = s - float_to_int32 (echo_times_decay e) ∧
      cancel_value s e = clamp16 (s - float_to_int32 (echo_times_decay e)) ∧
      wrap16 (clamp16 (s - float_to_int32 (echo_times_decay e)))
        = clamp16 (s - float_to_int32 (echo_times_decay e)) ∧
      isInt16 (cancel_value s e) := by
  constructor
  · obtain ⟨stn, inn, hrun, _, hall⟩ := echo_loop_int16 st input hwf hbuf hin n hn
    exact ⟨stn, inn, hrun, hall⟩
  · intro s e hs he
    have hb := tdiv_decay_bounds e he
    have hd := float_to_int32_decay e he
    have hcv := cancel_value_eq s e hs he
    obtain ⟨h1, h2⟩ := hs
    rw [hd]
    refine ⟨wrap32_of_range _ (by omega) (by omega), hcv,
      wrap16_of_range _ (clamp16_range _), ?_⟩
    rw [hcv]; exact clamp16_range _

/-- C15 at a concrete input: a history holding the extreme value 32767 at the slot read
for a frame holding the extreme value -32768. -/
theorem c15_cancelled_samples_in_16_bit_range_witness :
    (∃ stn inn, apply_echo_cancellation
        { echo_buffer := 32767 :: List.replicate 3999 0, echo_write_pos := 1600 } [-32768] 1
        = some (stn, inn) ∧
      ∀ x, x ∈ inn → isInt16 x) ∧
    ∀ s e, isInt16 s → isInt16 e →
      wrap32 (s - float_to_int32 (echo_times_decay e))
        = s - float_to_int32 (echo_times_decay e) ∧
      cancel_value s e = clamp16 (s - float_to_int32 (echo_times_decay e)) ∧
      wrap16 (clamp16 (s - float_to_int32 (echo_times_decay e)))
        = clamp16 (s - float_to_int32 (echo_times_decay e)) ∧
      isInt16 (cancel_value s e) :=
  c15_cancelled_samples_in_16_bit_range
    { echo_buffer := 32767 :: List.replicate 3999 0, echo_write_pos := 1600 } [-32768] 1
    (echoWF_of _ _ (length_history 32767) (by decide) (by decide)) (by decide)
    (fun x hx => by
      rcases List.mem_cons.mp hx with h | h
      · rw [h]; decide
      · rw [List.eq_of_mem_replicate h]; decide)
    (fun x hx => by
      rcases List.mem_cons.mp hx with h | h
      · rw [h]; decide
      · cases h)

/-- C16 (code evaluated at the failing input): the slot read in an iteration lies
`1600 - i` slots, modulo the capacity, behind the slot written in it: 1600 for `i = 0`,
but 1599 for `i = 1`, because the cursor has already advanced `i` slots when `i` is added
again; so the lookback distance differs from sample to sample. -/
theorem c16_lookback_shrinks_with_sample_index :
    Int.tdiv SAMPLE_RATE 10 = 1600 ∧
    lookback 1600 0 = 1600 ∧ lookback 1601 1 = 1599 ∧
    (∀ (w : Int) (i : Nat), 0 ≤ w → w < 4000 → lookback w i = (1600 - (i : Int)) % 4000) ∧
    ∀ (st : EchoState) (input : List Int), EchoWF st → 2 ≤ input.length →
      ∃ st1 in1, apply_echo_cancellation st input 1 = some (st1, in1) ∧
        lookback st.echo_write_pos 0 = 1600 ∧ lookback st1.echo_write_pos 1 = 1599 := by
  refine ⟨by decide, by decide, by decide, lookback_eq, ?_⟩
  intro st input hwf hlen
  obtain ⟨st1, in1, hrun, hwf1, _, _, _⟩ := echo_loop_inv st input hwf 1 (by omega)
  have h2 := hwf.2.2
  have h2' := hwf1.2.2
  rw [ECHO_BUFFER_LENGTH_eq] at h2 h2'
  refine ⟨st1, in1, hrun, ?_, ?_⟩
  · rw [lookback_eq _ 0 hwf.2.1 h2]; decide
  · rw [lookback_eq _ 1 hwf1.2.1 h2']; decide

/-- C17: for every cursor `w` in `[0, C)` and every loop counter `i` (in particular every
`i < BUFFER_SAMPLES`), the read index computed with the truncating remainder and the
single correction by `C` is the mathematical residue `(w - delay + i) mod C` with
`C = 4000` and `delay = 1600`, it lies in `[0, C)`, and on a history of `C` slots the
read at that index and the write at the cursor are both inside the array. -/
theorem c17_read_index_is_residue_in_bounds (w : Int) (i : Nat)
    (h0 : 0 ≤ w) (h1 : w < ECHO_BUFFER_LENGTH) :
    ECHO_BUFFER_LENGTH = 4000 ∧ Int.tdiv SAMPLE_RATE 10 = 1600 ∧
    echo_pos w i = (w - 1600 + (i : Int)) % 4000 ∧
    0 ≤ echo_pos w i ∧ echo_pos w i < ECHO_BUFFER_LENGTH ∧
    ∀ buf : List Int, (buf.length : Int) = ECHO_BUFFER_LENGTH →
      (∃ e, readAt buf (echo_pos w i) = some e) ∧ ∀ v, ∃ buf', writeAt buf w v = some buf' := by
  rw [ECHO_BUFFER_LENGTH_eq] at h1 ⊢
  have hr := echo_pos_range w i h0 h1
  refine ⟨rfl, echo_delay_eq, echo_pos_eq w i h0 h1, hr.1, hr.2, ?_⟩
  intro buf hlen
  exact ⟨readAt_total buf _ hr.1 (by omega), fun v => writeAt_total buf w v h0 (by omega)⟩

/-- C17 at a concrete input: cursor 0 and sample 0, where the truncating remainder is
negative and the correction applies. -/
theorem c17_read_index_is_residue_in_bounds_witness :
    ECHO_BUFFER_LENGTH = 4000 ∧ Int.tdiv SAMPLE_RATE 10 = 1600 ∧
    echo_pos 0 0 = (0 - 1600 + ((0 : Nat) : Int)) % 4000 ∧
    0 ≤ echo_pos 0 0 ∧ echo_pos 0 0 < ECHO_BUFFER_LENGTH ∧
    ∀ buf : List Int, (buf.length : Int) = ECHO_BUFFER_LENGTH →
      (∃ e, readAt buf (echo_pos 0 0) = some e) ∧ ∀ v, ∃ buf', writeAt buf 0 v = some buf' :=
  c17_read_index_is_residue_in_bounds 0 0 (by decide) (by decide)

end MicDebug

/-! ## The loopback pipeline -/

namespace MicDebug

/-- The mono-to-stereo loop invariant: the first `k` pairs of `stereo_buffer` hold the first
`k` mono samples twice, the rest of the array is untouched. -/
theorem stereo_loop_inv (output_buffer stereo_buffer : List Int) :
    ∀ k, k ≤ output_buffer.length → k * 2 ≤ stereo_buffer.length →
      ∃ sb, stereo_loop output_buffer stereo_buffer k = some sb ∧
        sb.length = stereo_buffer.length ∧
        (∀ i, i < k → sb[i * 2]? = output_buffer[i]? ∧ sb[i * 2 + 1]? = output_buffer[i]?) ∧
        ∀ j, k * 2 ≤ j → sb[j]? = stereo_buffer[j]? := by
  intro k
  induction k with
  | zero => intro _ _; exact ⟨stereo_buffer, rfl, rfl, fun i hi => by omega, fun _ _ => rfl⟩
  | succ k ih =>
    intro hout hst
    obtain ⟨sb, hrun, hlen, hdone, hrest⟩ := ih (by omega) (by omega)
    have hk : k < output_buffer.length := by omega
    have h1 : k * 2 < sb.length := by omega
    have h2 : k * 2 + 1 < (sb.set (k * 2) output_buffer[k]).length := by
      rw [List.length_set]; omega
    have hget : output_buffer[k]? = some output_buffer[k] := List.getElem?_eq_getElem hk
    refine ⟨(sb.set (k * 2) output_buffer[k]).set (k * 2 + 1) output_buffer[k], ?_, ?_, ?_, ?_⟩
    · show (stereo_loop output_buffer stereo_buffer k).bind _ = _
      rw [hrun]
      show stereo_iteration output_buffer sb k = _
      unfold stereo_iteration
      have h2' : k * 2 + 1 < sb.length := by omega
      simp [hget, storeAt, h1, h2']
    · rw [List.length_set, List.length_set]; exact hlen
    · intro i hi
      by_cases hik : i = k
      · subst hik
        constructor
        · rw [List.getElem?_set_ne (by omega), List.getElem?_set_self h1, hget]
        · rw [List.getElem?_set_self h2, hget]
      · have hlt : i < k := by omega
        obtain ⟨ha, hb⟩ := hdone i hlt
        constructor
        · rw [List.getElem?_set_ne (by omega), List.getElem?_set_ne (by omega)]; exact ha
        · rw [List.getElem?_set_ne (by omega), List.getElem?_set_ne (by omega)]; exact hb
    · intro j hj
      rw [List.getElem?_set_ne (by omega), List.getElem?_set_ne (by omega)]
      exact hrest j (by omega)

theorem stack_array_length (stack : Nat → Int) :
    ((List.range (BUFFER_SAMPLES * 2)).map stack).length = BUFFER_SAMPLES * 2 := by
  rw [List.length_map, List.length_range]

/-- The successful path of `audio_loopback`, assembled from its three loops. -/
theorem audio_loopback_eq (st : LoopbackState) (delivered : List Int) (stack : Nat → Int)
    (speaker_ok : Bool) (r : EchoState × List Int) (out stereo : List Int)
    (h1 : apply_echo_cancellation st.echo
      (delivered.take (BUFFER_SAMPLES * 2 / 2) ++
        st.input_buffer.drop (delivered.take (BUFFER_SAMPLES * 2 / 2)).length)
      BUFFER_SAMPLES = some r)
    (h2 : gain_loop r.2 st.output_buffer BUFFER_SAMPLES = some out)
    (h3 : stereo_loop out ((List.range (BUFFER_SAMPLES * 2)).map stack) BUFFER_SAMPLES
      = some stereo) :
    ∃ counter, audio_loopback st (some delivered) stack speaker_ok =
      some { state := { echo := r.1, input_buffer := r.2, output_buffer := out,
                        debug_counter := counter },
             playback := some (stereo, BUFFER_SAMPLES * 4) } := by
  refine ⟨if speaker_ok then (if st.debug_counter + 1 ≥ 100 then 0 else st.debug_counter + 1)
      else st.debug_counter, ?_⟩
  unfold audio_loopback
  simp only [h1, h2, h3, Option.bind]

/-- Echo cancellation of a zero frame against a zero history changes nothing. -/
theorem echo_loop_zero (st : EchoState) (input : List Int) (hwf : EchoWF st)
    (hbuf : ∀ x, x ∈ st.echo_buffer → x = 0) (hin : ∀ x, x ∈ input → x = 0) :
    ∀ k, k ≤ input.length → ∃ stk, echo_loop st input k = some (stk, input) ∧
      ∀ x, x ∈ stk.echo_buffer → x = 0 := by
  intro k
  induction k with
  | zero => intro _; exact ⟨st, rfl, hbuf⟩
  | succ k ih =>
    intro hk
    obtain ⟨stk, hloop, hbufk⟩ := ih (by omega)
    obtain ⟨stk', ink', hloop', hwfk, _, _, _⟩ := echo_loop_inv st input hwf k (by omega)
    rw [hloop] at hloop'
    obtain ⟨rfl, rfl⟩ := Prod.mk.inj (Option.some.inj hloop')
    have hik : k < input.length := by omega
    obtain ⟨e, he, hit⟩ := echo_iteration_total stk input k hwfk hik
    have he0 : e = 0 := by
      apply hbufk
      unfold readAt at he
      split at he
      · exact List.mem_iff_getElem?.mpr ⟨_, he⟩
      · cases he
    have hs0 : input[k] = 0 := hin _ (List.getElem_mem hik)
    have hv : sample_after input[k] e = 0 := by rw [hs0, he0]; decide
    rw [hv] at hit
    have hset : input.set k 0 = input :=
      set_self_of_getElem? input k 0 (by rw [List.getElem?_eq_getElem hik, hs0])
    rw [hset] at hit
    refine ⟨{ echo_buffer := stk.echo_buffer.set stk.echo_write_pos.toNat 0,
              echo_write_pos := (stk.echo_write_pos + 1) % 4000 }, ?_, ?_⟩
    · show (echo_loop st input k).bind _ = _
      rw [hloop]; exact hit
    · intro x hx
      rcases List.mem_or_eq_of_mem_set hx with h | h
      · exact hbufk x h
      · exact h

theorem eq_replicate_of_getElem? (l : List Int) (n : Nat) (a : Int) (hlen : l.length = n)
    (h : ∀ i, i < n → l[i]? = some a) : l = List.replicate n a := by
  rw [List.eq_replicate_iff]
  refine ⟨hlen, ?_⟩
  intro b hb
  obtain ⟨i, hi⟩ := List.mem_iff_getElem?.mp hb
  have hlt : i < n := by
    rcases Nat.lt_or_ge i l.length with hh | hh
    · omega
    · rw [List.getElem?_eq_none hh] at hi; cases hi
  rw [h i hlt] at hi
  exact (Option.some.inj hi).symm

end MicDebug

namespace MicDebug

theorem capture_buffer_length (delivered input_buffer : List Int)
    (hin : input_buffer.length = BUFFER_SAMPLES) :
    (delivered.take (BUFFER_SAMPLES * 2 / 2) ++
      input_buffer.drop (delivered.take (BUFFER_SAMPLES * 2 / 2)).length).length
      = BUFFER_SAMPLES := by
  have h : BUFFER_SAMPLES * 2 / 2 = BUFFER_SAMPLES := by decide
  rw [h, List.length_append, List.length_drop, List.length_take, hin]
  omega

/-- With its buffers allocated, a call of `audio_loopback` whose capture read succeeds runs
its three loops to the end and hands the stereo array to the playback write. -/
theorem audio_loopback_total (st : LoopbackState) (delivered : List Int) (stack : Nat → Int)
    (speaker_ok : Bool) (hwf : EchoWF st.echo)
    (hin : st.input_buffer.length = BUFFER_SAMPLES)
    (hout : st.output_buffer.length = BUFFER_SAMPLES) :
    ∃ (r : EchoState × List Int) (out stereo : List Int) (counter : Nat),
      audio_loopback st (some delivered) stack speaker_ok =
        some { state := { echo := r.1, input_buffer := r.2, output_buffer := out,
                          debug_counter := counter },
               playback := some (stereo, BUFFER_SAMPLES * 4) } ∧
      out.length = BUFFER_SAMPLES ∧ stereo.length = BUFFER_SAMPLES * 2 ∧
      ∀ i, i < BUFFER_SAMPLES → stereo[i * 2]? = out[i]? ∧ stereo[i * 2 + 1]? = out[i]? := by
  have hcap := capture_buffer_length delivered st.input_buffer hin
  obtain ⟨stn, inn, h1, _, hlenn, _, _⟩ :=
    echo_loop_inv st.echo _ hwf BUFFER_SAMPLES (by rw [hcap])
  obtain ⟨out, h2, hlen2, _, _⟩ :=
    gain_loop_inv inn st.output_buffer BUFFER_SAMPLES (by rw [hlenn, hcap]) (by rw [hout])
  obtain ⟨stereo, h3, hlen3, hpairs, _⟩ :=
    stereo_loop_inv out ((List.range (BUFFER_SAMPLES * 2)).map stack) BUFFER_SAMPLES
      (by rw [hlen2, hout]) (by rw [stack_array_length])
  obtain ⟨counter, hrun⟩ :=
    audio_loopback_eq st delivered stack speaker_ok (stn, inn) out stereo h1 h2 h3
  refine ⟨(stn, inn), out, stereo, counter, hrun, ?_, ?_, hpairs⟩
  · rw [hlen2, hout]
  · rw [hlen3, stack_array_length]

/-- C11: the mono-to-stereo loop of `audio_loopback` maps every mono frame of length
`N = BUFFER_SAMPLES` to a stereo array of length exactly `2 N` whose slots `2 i` and
`2 i + 1` both hold mono sample `i`, for every `i < N`; and in every call of
`audio_loopback` whose capture read succeeds, the array handed to the playback write
is related in this way to the amplified frame in `output_buffer`. -/
theorem c11_mono_to_stereo_duplicates (output_buffer : List Int) (stack : Nat → Int)
    (st : LoopbackState) (delivered : List Int) (speaker_ok : Bool)
    (hlen : output_buffer.length = BUFFER_SAMPLES) (hwf : EchoWF st.echo)
    (hin : st.input_buffer.length = BUFFER_SAMPLES)
    (hout : st.output_buffer.length = BUFFER_SAMPLES) :
    (∃ stereo, stereo_loop output_buffer ((List.range (BUFFER_SAMPLES * 2)).map stack)
        BUFFER_SAMPLES = some stereo ∧
      stereo.length = 2 * BUFFER_SAMPLES ∧
      ∀ i, i < BUFFER_SAMPLES → ∃ v, output_buffer[i]? = some v ∧
        stereo[2 * i]? = some v ∧ stereo[2 * i + 1]? = some v) ∧
    ∃ res stereo bytes, audio_loopback st (some delivered) stack speaker_ok = some res ∧
      res.playback = some (stereo, bytes) ∧ stereo.length = 2 * BUFFER_SAMPLES ∧
      ∀ i, i < BUFFER_SAMPLES → ∃ v, res.state.output_buffer[i]? = some v ∧
        stereo[2 * i]? = some v ∧ stereo[2 * i + 1]? = some v := by
  constructor
  · obtain ⟨stereo, h3, hlen3, hpairs, _⟩ :=
      stereo_loop_inv output_buffer ((List.range (BUFFER_SAMPLES * 2)).map stack)
        BUFFER_SAMPLES (by rw [hlen]) (by rw [stack_array_length])
    refine ⟨stereo, h3, ?_, ?_⟩
    · rw [hlen3, stack_array_length, Nat.mul_comm]
    · intro i hi
      have hil : i < output_buffer.length := by omega
      obtain ⟨ha, hb⟩ := hpairs i hi
      refine ⟨output_buffer[i], List.getElem?_eq_getElem hil, ?_, ?_⟩
      · rw [Nat.mul_comm, ha, List.getElem?_eq_getElem hil]
      · rw [Nat.mul_comm, hb, List.getElem?_eq_getElem hil]
  · obtain ⟨r, out, stereo, counter, hrun, hlen2, hlen3, hpairs⟩ :=
      audio_loopback_total st delivered stack speaker_ok hwf hin hout
    refine ⟨_, stereo, BUFFER_SAMPLES * 4, hrun, rfl, ?_, ?_⟩
    · rw [hlen3, Nat.mul_comm]
    · intro i hi
      have hil : i < out.length := by omega
      obtain ⟨ha, hb⟩ := hpairs i hi
      refine ⟨out[i], List.getElem?_eq_getElem hil, ?_, ?_⟩
      · rw [Nat.mul_comm, ha, List.getElem?_eq_getElem hil]
      · rw [Nat.mul_comm, hb, List.getElem?_eq_getElem hil]

/-- C11 at a concrete input: a mono frame of 480 samples of value 5, and a call of
`audio_loopback` on a zero history with a capture of 480 samples of value 3. -/
theorem c11_mono_to_stereo_duplicates_witness :
    (∃ stereo, stereo_loop (List.replicate 480 5)
        ((List.range (BUFFER_SAMPLES * 2)).map (fun _ => 9)) BUFFER_SAMPLES = some stereo ∧
      stereo.length = 2 * BUFFER_SAMPLES ∧
      ∀ i, i < BUFFER_SAMPLES → ∃ v, (List.replicate 480 (5 : Int))[i]? = some v ∧
        stereo[2 * i]? = some v ∧ stereo[2 * i + 1]? = some v) ∧
    ∃ res stereo bytes,
      audio_loopback
        { echo := { echo_buffer := 0 :: List.replicate 3999 0, echo_write_pos := 0 },
          input_buffer := List.replicate 480 1, output_buffer := List.replicate 480 2,
          debug_counter := 0 }
        (some (List.replicate 480 3)) (fun _ => 9) true = some res ∧
      res.playback = some (stereo, bytes) ∧ stereo.length = 2 * BUFFER_SAMPLES ∧
      ∀ i, i < BUFFER_SAMPLES → ∃ v, res.state.output_buffer[i]? = some v ∧
        stereo[2 * i]? = some v ∧ stereo[2 * i + 1]? = some v :=
  c11_mono_to_stereo_duplicates (List.replicate 480 5) (fun _ => 9)
    { echo := { echo_buffer := 0 :: List.replicate 3999 0, echo_write_pos := 0 },
      input_buffer := List.replicate 480 1, output_buffer := List.replicate 480 2,
      debug_counter := 0 }
    (List.replicate 480 3) true
    (by rw [List.length_replicate]; decide)
    (echoWF_of _ _ (length_history 0) (by decide) (by decide))
    (by show (List.replicate 480 (1 : Int)).length = _; rw [List.length_replicate]; decide)
    (by show (List.replicate 480 (2 : Int)).length = _; rw [List.length_replicate]; decide)

/-- C12: when the capture read fails, `audio_loopback` returns at once: it makes no
playback write and leaves the echo history buffer, the write cursor and all other
globals exactly as they were. -/
theorem c12_failed_read_drops_frame (st : LoopbackState) (stack : Nat → Int)
    (speaker_ok : Bool) :
    ∃ res, audio_loopback st none stack speaker_ok = some res ∧
      res.playback = none ∧
      res.state.echo.echo_buffer = st.echo.echo_buffer ∧
      res.state.echo.echo_write_pos = st.echo.echo_write_pos ∧
      res.state = st :=
  ⟨{ state := st, playback := none }, rfl, rfl, rfl, rfl, rfl⟩

/-- C13: when the capture read delivers `N = BUFFER_SAMPLES` zeros and the echo history is
all zeros, `audio_loopback` returns with the frame all zeros after echo cancellation
(`input_buffer`) and after the gain stage (`output_buffer`), the history still all zeros,
and the playback write is called with a stereo array of `2 N` zeros and the byte length
`2 N * 2`. -/
theorem c13_zero_frame_stays_zero (st : LoopbackState) (stack : Nat → Int)
    (speaker_ok : Bool) (hwf : EchoWF st.echo)
    (hzero : ∀ x, x ∈ st.echo.echo_buffer → x = 0)
    (hin : st.input_buffer.length = BUFFER_SAMPLES)
    (hout : st.output_buffer.length = BUFFER_SAMPLES) :
    VOLUME_MULTIPLIER = 16 ∧
    ∃ res, audio_loopback st (some (List.replicate BUFFER_SAMPLES 0)) stack speaker_ok
        = some res ∧
      res.state.input_buffer = List.replicate BUFFER_SAMPLES 0 ∧
      res.state.output_buffer = List.replicate BUFFER_SAMPLES 0 ∧
      (∀ x, x ∈ res.state.echo.echo_buffer → x = 0) ∧
      res.playback = some (List.replicate (2 * BUFFER_SAMPLES) 0, 2 * BUFFER_SAMPLES * 2) := by
  refine ⟨rfl, ?_⟩
  have hN : BUFFER_SAMPLES * 2 / 2 = BUFFER_SAMPLES := by decide
  have hcap : (List.replicate BUFFER_SAMPLES (0 : Int)).take (BUFFER_SAMPLES * 2 / 2) ++
      st.input_buffer.drop
        ((List.replicate BUFFER_SAMPLES (0 : Int)).take (BUFFER_SAMPLES * 2 / 2)).length
      = List.replicate BUFFER_SAMPLES 0 := by
    have ht : (List.replicate BUFFER_SAMPLES (0 : Int)).take (BUFFER_SAMPLES * 2 / 2)
        = List.replicate BUFFER_SAMPLES 0 := by
      rw [hN]; exact List.take_of_length_le (by rw [List.length_replicate])
    rw [ht, List.length_replicate, List.drop_of_length_le (by rw [hin]), List.append_nil]
  have hzin : ∀ x, x ∈ List.replicate BUFFER_SAMPLES (0 : Int) → x = 0 :=
    fun x hx => List.eq_of_mem_replicate hx
  obtain ⟨stn, h1, hbufn⟩ := echo_loop_zero st.echo (List.replicate BUFFER_SAMPLES 0) hwf
    hzero hzin BUFFER_SAMPLES (by rw [List.length_replicate])
  obtain ⟨out, h2, hlen2, hdone, _⟩ :=
    gain_loop_inv (List.replicate BUFFER_SAMPLES 0) st.output_buffer BUFFER_SAMPLES
      (by rw [List.length_replicate]) (by rw [hout])
  have hg0 : gain_value 0 = 0 := by decide
  have hout0 : out = List.replicate BUFFER_SAMPLES 0 := by
    apply eq_replicate_of_getElem? out BUFFER_SAMPLES 0 (by rw [hlen2, hout])
    intro i hi
    rw [hdone i hi, List.getElem?_replicate_of_lt hi]
    show some (gain_value 0) = some 0
    rw [hg0]
  obtain ⟨stereo, h3, hlen3, hpairs, _⟩ :=
    stereo_loop_inv out ((List.range (BUFFER_SAMPLES * 2)).map stack) BUFFER_SAMPLES
      (by rw [hlen2, hout]) (by rw [stack_array_length])
  have hst0 : stereo = List.replicate (2 * BUFFER_SAMPLES) 0 := by
    apply eq_replicate_of_getElem? stereo (2 * BUFFER_SAMPLES) 0
      (by rw [hlen3, stack_array_length, Nat.mul_comm])
    intro j hj
    have hi : j / 2 < BUFFER_SAMPLES := by omega
    obtain ⟨ha, hb⟩ := hpairs (j / 2) hi
    have hv : out[j / 2]? = some 0 := by rw [hout0, List.getElem?_replicate_of_lt hi]
    rcases Nat.mod_two_eq_zero_or_one j with hm | hm
    · have hj2 : j = j / 2 * 2 := by omega
      rw [hj2, ha, hv]
    · have hj2 : j = j / 2 * 2 + 1 := by omega
      rw [hj2, hb, hv]
  rw [← hcap] at h1
  obtain ⟨counter, hrun⟩ := audio_loopback_eq st (List.replicate BUFFER_SAMPLES 0) stack
    speaker_ok (stn, _) out stereo h1 (by rw [hcap]; exact h2) h3
  refine ⟨_, hrun, hcap, hout0, hbufn, ?_⟩
  show some (stereo, BUFFER_SAMPLES * 4) = _
  rw [hst0]
  rfl

end MicDebug

/-! ## The HTTP answer buffer and the frame accounting of `send_audio` -/

namespace Firmware

theorem MAX_HTTP_OUTPUT_BUFFER_eq : MAX_HTTP_OUTPUT_BUFFER = 2048 := rfl

theorem ANSWER_BUFFER_SIZE_eq : ANSWER_BUFFER_SIZE = 2049 := by decide

theorem fill_length (buf fill : List Nat) (h : fill.length ≤ buf.length) :
    (fill ++ buf.drop fill.length).length = buf.length := by
  rw [List.length_append, List.length_drop]; omega

theorem fill_getElem? (buf fill : List Nat) (j : Nat) (h : fill.length ≤ j) :
    (fill ++ buf.drop fill.length)[j]? = buf[j]? := by
  rw [List.getElem?_append_right h, List.getElem?_drop]
  congr 1; omega

theorem splice_length (buf mid : List Nat) (o : Nat) (h : o + mid.length ≤ buf.length) :
    (buf.take o ++ mid ++ buf.drop (o + mid.length)).length = buf.length := by
  rw [List.length_append, List.length_append, List.length_drop, List.length_take]
  omega

theorem splice_getElem? (buf mid : List Nat) (o j : Nat) (h : o + mid.length ≤ buf.length)
    (hj : o + mid.length ≤ j) :
    (buf.take o ++ mid ++ buf.drop (o + mid.length))[j]? = buf[j]? := by
  have hl : (buf.take o ++ mid).length = o + mid.length := by
    rw [List.length_append, List.length_take]; omega
  rw [List.getElem?_append_right (by rw [hl]; exact hj), hl, List.getElem?_drop]
  congr 1; omega

/-- The first-chunk `memset` stays inside the first `MAX_HTTP_OUTPUT_BUFFER` bytes. -/
theorem memset_zero_spec (buf : List Nat) (hlen : buf.length = 2049) :
    ∃ buf1, memset_zero buf MAX_HTTP_OUTPUT_BUFFER = some buf1 ∧ buf1.length = 2049 ∧
      buf1[2048]? = buf[2048]? := by
  have hn : MAX_HTTP_OUTPUT_BUFFER.toNat = 2048 := rfl
  have hfl : (List.replicate 2048 (0 : Nat)).length = 2048 := List.length_replicate _ _
  refine ⟨List.replicate 2048 0 ++ buf.drop 2048, ?_, ?_, ?_⟩
  · unfold memset_zero
    rw [hn, if_pos ⟨by decide, by omega⟩]
  · have := fill_length buf (List.replicate 2048 0) (by omega)
    rw [hfl] at this
    rw [this, hlen]
  · have := fill_getElem? buf (List.replicate 2048 0) 2048 (by omega)
    rw [hfl] at this
    exact this

/-- A `memcpy` that ends at or before offset `MAX_HTTP_OUTPUT_BUFFER` succeeds and leaves the
final byte alone. -/
theorem memcpy_at_spec (buf src : List Nat) (offset n : Int) (hlen : buf.length = 2049)
    (h0 : 0 ≤ offset) (hn : 0 ≤ n) (hle : offset + n ≤ 2048) :
    ∃ buf2, memcpy_at buf offset src n = some buf2 ∧ buf2.length = 2049 ∧
      buf2[2048]? = buf[2048]? := by
  have hmid : ((List.range n.toNat).map (fun j => src.getD j 0)).length = n.toNat := by
    rw [List.length_map, List.length_range]
  have hb : offset.toNat + n.toNat ≤ buf.length := by omega
  refine ⟨buf.take offset.toNat ++ (List.range n.toNat).map (fun j => src.getD j 0) ++
      buf.drop (offset.toNat + n.toNat), ?_, ?_, ?_⟩
  · unfold memcpy_at
    rw [if_pos ⟨h0, hn, hb⟩]
  · have := splice_length buf ((List.range n.toNat).map (fun j => src.getD j 0)) offset.toNat
      (by rw [hmid]; exact hb)
    rw [hmid] at this
    rw [this, hlen]
  · have := splice_getElem? buf ((List.range n.toNat).map (fun j => src.getD j 0))
      offset.toNat 2048 (by rw [hmid]; exact hb) (by rw [hmid]; omega)
    rw [hmid] at this
    exact this

theorem httpInv_intro (last : Option Nat) (output_len : Int) (buf : List Nat)
    (writes : List (Int × Int)) (h0 : 0 ≤ output_len) (h1 : output_len ≤ 2048)
    (hw : ∀ w, w ∈ writes → 0 ≤ w.1 ∧ 0 ≤ w.2 ∧ w.1 + w.2 ≤ 2048)
    (hlen : buf.length = 2049) (hlast : buf[2048]? = last) :
    HttpInv last { output_len := output_len, user_data := some buf, writes := writes } :=
  ⟨h0, h1, hw, buf, rfl, hlen, hlast⟩

theorem writes_snoc (writes : List (Int × Int)) (a b : Int)
    (hw : ∀ w, w ∈ writes → 0 ≤ w.1 ∧ 0 ≤ w.2 ∧ w.1 + w.2 ≤ 2048)
    (ha : 0 ≤ a) (hb : 0 ≤ b) (hab : a + b ≤ 2048) :
    ∀ w, w ∈ writes ++ [(a, b)] → 0 ≤ w.1 ∧ 0 ≤ w.2 ∧ w.1 + w.2 ≤ 2048 := by
  intro w hmem
  rcases List.mem_append.mp hmem with h | h
  · exact hw w h
  · rw [List.mem_singleton.mp h]; exact ⟨ha, hb, hab⟩

/-- The data case keeps the invariant when `data_len` is not negative. -/
theorem on_data_inv (last : Option Nat) (st : HttpState) (buf : List Nat) (data_len : Int)
    (data : List Nat) (hinv : HttpInv last st) (hbuf : st.user_data = some buf)
    (hd : 0 ≤ data_len) :
    ∃ st', on_data st buf data_len data = .returned st' ∧ HttpInv last st' := by
  obtain ⟨h0, h1, hw, buf', hbuf', hlen, hlast⟩ := hinv
  rw [hbuf] at hbuf'
  obtain rfl := Option.some.inj hbuf'
  rw [MAX_HTTP_OUTPUT_BUFFER_eq] at h1 hw
  rw [ANSWER_BUFFER_SIZE_eq] at hlen
  have hidx : MAX_HTTP_OUTPUT_BUFFER.toNat = 2048 := rfl
  rw [hidx] at hlast
  -- the buffer and the record after the optional first-chunk clearing
  obtain ⟨buf1, writes1, hc, hw1, hlen1, hlast1⟩ :
      ∃ buf1 writes1,
        ((if st.output_len = 0 then memset_zero buf MAX_HTTP_OUTPUT_BUFFER else some buf)
            = some buf1 ∧
          (if st.output_len = 0 then st.writes ++ [(0, MAX_HTTP_OUTPUT_BUFFER)] else st.writes)
            = writes1) ∧
        (∀ w, w ∈ writes1 → 0 ≤ w.1 ∧ 0 ≤ w.2 ∧ w.1 + w.2 ≤ 2048) ∧
        buf1.length = 2049 ∧ buf1[2048]? = last := by
    by_cases hz : st.output_len = 0
    · obtain ⟨buf1, hm, hl, hg⟩ := memset_zero_spec buf hlen
      refine ⟨buf1, st.writes ++ [(0, MAX_HTTP_OUTPUT_BUFFER)], ⟨?_, ?_⟩, ?_, hl, ?_⟩
      · rw [if_pos hz]; exact hm
      · rw [if_pos hz]
      · exact writes_snoc st.writes 0 MAX_HTTP_OUTPUT_BUFFER hw (by decide) (by decide)
          (by decide)
      · rw [hg]; exact hlast
    · exact ⟨buf, st.writes, ⟨by rw [if_neg hz], by rw [if_neg hz]⟩, hw, hlen, hlast⟩
  obtain ⟨hc1, hc2⟩ := hc
  unfold on_data
  simp only [hc1, hc2]
  rw [MAX_HTTP_OUTPUT_BUFFER_eq]
  by_cases hlt : data_len < 2048 - st.output_len
  · simp only [hlt, if_true]
    by_cases hne : data_len ≠ 0
    · obtain ⟨buf2, hm, hl2, hg2⟩ :=
        memcpy_at_spec buf1 data st.output_len data_len hlen1 h0 hd (by omega)
      simp only [hne, if_true, ne_eq, not_false_eq_true, hm]
      exact ⟨_, rfl, httpInv_intro last _ buf2 _ (by omega) (by omega)
        (writes_snoc writes1 _ _ hw1 h0 hd (by omega)) hl2 (by rw [hg2]; exact hlast1)⟩
    · simp only [hne, if_false]
      exact ⟨_, rfl, httpInv_intro last _ buf1 _ (by omega) (by omega) hw1 hlen1 hlast1⟩
  · simp only [hlt, if_false]
    by_cases hne : 2048 - st.output_len ≠ 0
    · obtain ⟨buf2, hm, hl2, hg2⟩ :=
        memcpy_at_spec buf1 data st.output_len (2048 - st.output_len) hlen1 h0 (by omega)
          (by omega)
      simp only [hne, if_true, ne_eq, not_false_eq_true, hm]
      exact ⟨_, rfl, httpInv_intro last _ buf2 _ (by omega) (by omega)
        (writes_snoc writes1 _ _ hw1 h0 (by omega) (by omega)) hl2 (by rw [hg2]; exact hlast1)⟩
    · simp only [hne, if_false]
      exact ⟨_, rfl, httpInv_intro last _ buf1 _ (by omega) (by omega) hw1 hlen1 hlast1⟩

end Firmware

namespace Firmware

/-- One call of the handler keeps the invariant and does not fault. -/
theorem http_event_handler_inv (last : Option Nat) (st : HttpState) (evt : HttpEvent)
    (hinv : HttpInv last st) (hd : evt.data_len_nonneg) :
    (∃ st', http_event_handler st evt = .returned st' ∧ HttpInv last st') ∨
    (∃ st', http_event_handler st evt = .restarted st' ∧ HttpInv last st') := by
  have hreset : HttpInv last { st with output_len := 0 } := by
    obtain ⟨_, _, hw, hb⟩ := hinv
    have hmax : (0 : Int) ≤ MAX_HTTP_OUTPUT_BUFFER := by decide
    exact ⟨le_refl 0, hmax, hw, hb⟩
  cases evt with
  | HTTP_EVENT_ON_DATA data_len data chunked =>
    cases chunked with
    | true => exact Or.inr ⟨st, rfl, hinv⟩
    | false =>
      obtain ⟨buf, hbuf, _, _⟩ := hinv.2.2.2
      obtain ⟨st', hrun, hinv'⟩ := on_data_inv last st buf data_len data hinv hbuf hd
      refine Or.inl ⟨st', ?_, hinv'⟩
      show (if false = true then HttpResult.restarted st else
        match st.user_data with
        | none => HttpResult.returned { st with output_len := st.output_len + 0 }
        | some buf => on_data st buf data_len data) = _
      rw [if_neg (by decide), hbuf]
      exact hrun
  | HTTP_EVENT_ON_FINISH => exact Or.inl ⟨_, rfl, hreset⟩
  | HTTP_EVENT_DISCONNECTED => exact Or.inl ⟨_, rfl, hreset⟩
  | HTTP_EVENT_REDIRECT => exact Or.inl ⟨st, rfl, hinv⟩
  | HTTP_EVENT_ERROR => exact Or.inl ⟨st, rfl, hinv⟩
  | HTTP_EVENT_ON_CONNECTED => exact Or.inl ⟨st, rfl, hinv⟩
  | HTTP_EVENT_HEADER_SENT => exact Or.inl ⟨st, rfl, hinv⟩
  | HTTP_EVENT_ON_HEADER => exact Or.inl ⟨st, rfl, hinv⟩

/-- A run of the handler over any event sequence ends without a fault in a state that
satisfies the invariant. -/
theorem http_events_inv (last : Option Nat) : ∀ (events : List HttpEvent) (st : HttpState),
    HttpInv last st → (∀ evt, evt ∈ events → evt.data_len_nonneg) →
    ∃ st', (http_events st events).state = some st' ∧ HttpInv last st' := by
  intro events
  induction events with
  | nil => intro st hinv _; exact ⟨st, rfl, hinv⟩
  | cons evt rest ih =>
    intro st hinv hd
    rcases http_event_handler_inv last st evt hinv (hd evt (List.mem_cons_self _ _)) with
      ⟨st', hrun, hinv'⟩ | ⟨st', hrun, hinv'⟩
    · obtain ⟨st'', hrest, hinv''⟩ := ih st' hinv' (fun e he => hd e (List.mem_cons_of_mem _ he))
      refine ⟨st'', ?_, hinv''⟩
      unfold http_events
      rw [hrun]
      exact hrest
    · refine ⟨st', ?_, hinv'⟩
      unfold http_events
      rw [hrun]
      rfl

/-- C18: for every sequence of events handled by `http_event_handler` from `output_len = 0`
on an answer buffer of `MAX_HTTP_OUTPUT_BUFFER + 1` bytes, with every `data_len` at
least 0, after every prefix of the sequence the run has not left the buffer,
`output_len` is in `[0, MAX_HTTP_OUTPUT_BUFFER]`, every `memset` and `memcpy` made so
far covers only offsets in `[0, MAX_HTTP_OUTPUT_BUFFER)`, and the final byte of the
buffer is the one it held at the start. -/
theorem c18_answer_buffer_last_byte_untouched (buf : List Nat) (events : List HttpEvent)
    (hlen : buf.length = ANSWER_BUFFER_SIZE)
    (hdata : ∀ evt, evt ∈ events → evt.data_len_nonneg) :
    MAX_HTTP_OUTPUT_BUFFER = 2048 ∧ ANSWER_BUFFER_SIZE = 2049 ∧
    ∀ k, ∃ st',
      (http_events { output_len := 0, user_data := some buf, writes := [] }
        (events.take k)).state = some st' ∧
      0 ≤ st'.output_len ∧ st'.output_len ≤ MAX_HTTP_OUTPUT_BUFFER ∧
      (∀ w, w ∈ st'.writes → 0 ≤ w.1 ∧ 0 ≤ w.2 ∧ w.1 + w.2 ≤ MAX_HTTP_OUTPUT_BUFFER) ∧
      ∃ buf', st'.user_data = some buf' ∧ buf'.length = ANSWER_BUFFER_SIZE ∧
        buf'[2048]? = buf[2048]? := by
  refine ⟨rfl, ANSWER_BUFFER_SIZE_eq, ?_⟩
  intro k
  have hinit : HttpInv buf[2048]? { output_len := 0, user_data := some buf, writes := [] } :=
    httpInv_intro buf[2048]? 0 buf [] (le_refl 0) (by decide)
      (fun w hw => absurd hw (List.not_mem_nil w)) (by rw [hlen, ANSWER_BUFFER_SIZE_eq]) rfl
  obtain ⟨st', hrun, h0, h1, hw, hb⟩ := http_events_inv buf[2048]? (events.take k) _ hinit
    (fun e he => hdata e (List.mem_of_mem_take he))
  exact ⟨st', hrun, h0, h1, hw, hb⟩

/-- C18 at a concrete input: two data events of 2000 bytes each on a buffer of 2049 bytes,
the second of which is cut to the 48 bytes that remain. -/
theorem c18_answer_buffer_last_byte_untouched_witness :
    MAX_HTTP_OUTPUT_BUFFER = 2048 ∧ ANSWER_BUFFER_SIZE = 2049 ∧
    ∀ k, ∃ st',
      (http_events { output_len := 0, user_data := some (List.replicate 2049 7), writes := [] }
        ([HttpEvent.HTTP_EVENT_ON_DATA 2000 [1, 2, 3] false,
          HttpEvent.HTTP_EVENT_ON_DATA 2000 [4, 5] false].take k)).state = some st' ∧
      0 ≤ st'.output_len ∧ st'.output_len ≤ MAX_HTTP_OUTPUT_BUFFER ∧
      (∀ w, w ∈ st'.writes → 0 ≤ w.1 ∧ 0 ≤ w.2 ∧ w.1 + w.2 ≤ MAX_HTTP_OUTPUT_BUFFER) ∧
      ∃ buf', st'.user_data = some buf' ∧ buf'.length = ANSWER_BUFFER_SIZE ∧
        buf'[2048]? = (List.replicate 2049 7)[2048]? :=
  c18_answer_buffer_last_byte_untouched (List.replicate 2049 7)
    [HttpEvent.HTTP_EVENT_ON_DATA 2000 [1, 2, 3] false,
     HttpEvent.HTTP_EVENT_ON_DATA 2000 [4, 5] false]
    (by rw [List.length_replicate, ANSWER_BUFFER_SIZE_eq])
    (fun evt hevt => by
      rcases List.mem_cons.mp hevt with h | h
      · rw [h]; show (0 : Int) ≤ 2000; decide
      · rcases List.mem_cons.mp h with h' | h'
        · rw [h']; show (0 : Int) ≤ 2000; decide
        · cases h')

/-- C19: `send_audio` requests `BUFFER_SAMPLES = 320` bytes from the capture port and passes
`BUFFER_SAMPLES / 2 = 160` samples to the encoder; 320 is 160 times the 2-byte sample
width, 160 samples are 20 ms at `SAMPLE_RATE = 8000`, which is a legal Opus frame size,
and the frame the encoder reads from the 320-sample buffer has exactly 160 samples,
which after a full read are the samples the request delivers. -/
theorem c19_send_audio_frame_accounting :
    capture_request_bytes = 320 ∧ encoder_frame_size = 160 ∧ SAMPLE_RATE = 8000 ∧
    capture_request_bytes = encoder_frame_size * SIZEOF_OPUS_INT16 ∧
    encoder_frame_size * 1000 = 20 * SAMPLE_RATE ∧
    opus_frame_size_legal SAMPLE_RATE encoder_frame_size = true ∧
    ∀ (encoder_input_buffer mic : List Int) (opus_encode : List Int → Int × List Nat),
      encoder_input_buffer.length = BUFFER_SAMPLES →
      (send_audio encoder_input_buffer mic opus_encode).encoder_input.length
        = encoder_frame_size ∧
      (capture_request_bytes / SIZEOF_OPUS_INT16 ≤ mic.length →
        (send_audio encoder_input_buffer mic opus_encode).encoder_input
          = mic.take (capture_request_bytes / SIZEOF_OPUS_INT16)) := by
  refine ⟨rfl, by decide, rfl, by decide, by decide, by decide, ?_⟩
  intro encoder_input_buffer mic opus_encode hlen
  have h160 : BUFFER_SAMPLES / SIZEOF_OPUS_INT16 = 160 := by decide
  have h160' : BUFFER_SAMPLES / 2 = 160 := by decide
  have hfs : encoder_frame_size = 160 := by decide
  have hcb : capture_request_bytes / SIZEOF_OPUS_INT16 = 160 := by decide
  have h320 : BUFFER_SAMPLES = 320 := rfl
  rw [h320] at hlen
  rw [hfs, hcb]
  constructor
  · show ((mic.take (BUFFER_SAMPLES / SIZEOF_OPUS_INT16) ++
        encoder_input_buffer.drop (mic.take (BUFFER_SAMPLES / SIZEOF_OPUS_INT16)).length).take
          (BUFFER_SAMPLES / 2)).length = 160
    rw [h160, h160', List.length_take, List.length_append, List.length_drop, List.length_take,
      hlen]
    omega
  · intro hmic
    have hraw := send_audio_encoder_input encoder_input_buffer (mic.take 160) opus_encode
      (by rw [List.length_take]; omega)
    have hsame : send_audio encoder_input_buffer mic opus_encode
        = send_audio encoder_input_buffer (mic.take 160) opus_encode := by
      unfold send_audio
      rw [h160, List.take_take, Nat.min_self]
    rw [hsame]
    exact hraw

end Firmware

namespace MicDebug

/-- C13 at a concrete input: a zero history with the cursor at slot 0, and buffers that
hold other values before the call. -/
theorem c13_zero_frame_stays_zero_witness :
    VOLUME_MULTIPLIER = 16 ∧
    ∃ res,
      audio_loopback
        { echo := { echo_buffer := 0 :: List.replicate 3999 0, echo_write_pos := 0 },
          input_buffer := List.replicate 480 1, output_buffer := List.replicate 480 2,
          debug_counter := 0 }
        (some (List.replicate BUFFER_SAMPLES 0)) (fun _ => 9) true = some res ∧
      res.state.input_buffer = List.replicate BUFFER_SAMPLES 0 ∧
      res.state.output_buffer = List.replicate BUFFER_SAMPLES 0 ∧
      (∀ x, x ∈ res.state.echo.echo_buffer → x = 0) ∧
      res.playback = some (List.replicate (2 * BUFFER_SAMPLES) 0, 2 * BUFFER_SAMPLES * 2) :=
  c13_zero_frame_stays_zero
    { echo := { echo_buffer := 0 :: List.replicate 3999 0, echo_write_pos := 0 },
      input_buffer := List.replicate 480 1, output_buffer := List.replicate 480 2,
      debug_counter := 0 }
    (fun _ => 9) true
    (echoWF_of _ _ (length_history 0) (by decide) (by decide))
    (fun x hx => by
      rcases List.mem_cons.mp hx with h | h
      · exact h
      · exact List.eq_of_mem_replicate h)
    (by show (List.replicate 480 (1 : Int)).length = _; rw [List.length_replicate]; decide)
    (by show (List.replicate 480 (2 : Int)).length = _; rw [List.length_replicate]; decide)

end MicDebug
